import Mathlib

/-!
# dirtitle: terminal titles for directory paths

A shallow embedding of `dirtitle.go` and theorems about it.

Modelling conventions.

* A Go `string` (and the `[]byte` content of a title file) is a list of
  characters, `GoString`.  Every delimiter the program looks for (`/`, `.`,
  the white space removed by `bytes.TrimSpace`) is a single code point, so
  the program's byte-level operations act on this list position by position.
* Go functions returning `(string, bool, error)` return the triple
  `GoString × Bool × Option Error`; the `nil` error is `none`.
* Everything the program learns from outside (the current user, the
  environment variables, `os.Stat`, `os.ReadFile`) is a field of `World`.
  `filepath.Join` is a library function whose result only ever names the
  file handed to `os.Stat` and `os.ReadFile`; it is a field of `World` too,
  so every theorem holds for whatever it computes.
-/

namespace Dirtitle

/-- A Go string: a sequence of characters. -/
abbrev GoString := List Char

/-- An error value produced by the `os` package, with the answers that
`os.IsNotExist` and `os.IsPermission` give for it. -/
structure OSError where
  isNotExist : Bool
  isPermission : Bool
  text : GoString
deriving DecidableEq

/-- The error values the title functions can return: an error of the `os`
package passed on unchanged, or the one built by
`fmt.Errorf("bad directory path %#v", dpath)`. -/
inductive Error where
  | os (err : OSError)
  | badDirectoryPath (dpath : GoString)
deriving DecidableEq

/-- The fields of `user.User` the program reads. -/
structure User where
  Uid : GoString
  Username : GoString
  HomeDir : GoString
deriving DecidableEq

/-- What the program reads of an `os.FileInfo`: `IsDir()`, and the `Uid` of
`Sys()` when `Sys()` is a `*syscall.Stat_t` (`none` when the type assertion
fails). -/
structure FileInfo where
  IsDir : Bool
  Sys : Option Nat
deriving DecidableEq

/-- The outside world of one run of the program.  `userObj` is the result of
`user.Current()`, which the library computes once and caches, so the call in
`getShortTitle` returns the user that `init` stored. -/
structure World where
  userObj : User
  Getenv : GoString → GoString
  Stat : GoString → Except OSError FileInfo
  ReadFile : GoString → Except OSError GoString
  Join : List GoString → GoString

/-! ## Library functions -/

/-- Go's `unicode.IsSpace`. -/
def isSpace (r : Char) : Bool :=
  let c := r.toNat
  if c ≤ 0xFF then
    c == 0x09 || c == 0x0A || c == 0x0B || c == 0x0C || c == 0x0D || c == 0x20
      || c == 0x85 || c == 0xA0
  else
    c == 0x1680 || (0x2000 ≤ c && c ≤ 0x200A) || c == 0x2028 || c == 0x2029
      || c == 0x202F || c == 0x205F || c == 0x3000

/-- Go's `bytes.TrimSpace`: drop the leading and the trailing white space. -/
def TrimSpace (s : GoString) : GoString :=
  (s.dropWhile isSpace).rdropWhile isSpace

/-- Go's `strings.Split(s, sep)` for a separator of one character. -/
def Split (s : GoString) (sep : Char) : List GoString :=
  s.splitOn sep

/-- Go's `strings.Join(elems, sep)`. -/
def Join (elems : List GoString) (sep : GoString) : GoString :=
  sep.intercalate elems

/-- Go's `strings.LastIndex(s, sep)` for a separator of one character: the
index of its last occurrence, `-1` when there is none. -/
def LastIndex (s : GoString) (sep : Char) : Int :=
  if sep ∈ s then ((s.length - 1 - s.reverse.indexOf sep : Nat) : Int) else -1

/-- Go's `fmt.Sprintf("%d", n)` for an unsigned `n`. -/
def Sprintf_d (n : Nat) : GoString :=
  Nat.toDigits 10 n

/-! ## The program -/

/-- The value of `titleSep` once `init` has run. -/
def titleSep (w : World) : GoString :=
  let value := w.Getenv "DIRTITLE_SEP".toList
  if value ≠ [] then value else " ‹- ".toList

def getConfDir (w : World) : GoString :=
  let memDir := w.Join ["/run/shm".toList, w.userObj.Username, ".dirtitle".toList]
  match w.Stat memDir with
  | .ok stat =>
    if stat.IsDir then memDir
    else w.Join [w.userObj.HomeDir, ".dirtitle".toList]
  | .error _ => w.Join [w.userObj.HomeDir, ".dirtitle".toList]

/-- The file `readTitleFile` reads for `dpath`. -/
def titleFile (w : World) (dpath : GoString) : GoString :=
  w.Join [getConfDir w, dpath ++ ".title".toList]

/-- Returns `(title, stopHere, err)`. -/
def readTitleFile (w : World) (dpath : GoString) : GoString × Bool × Option Error :=
  match w.ReadFile (titleFile w dpath) with
  | .ok data =>
    let title := TrimSpace data
    if title = [] then ("Terminal".toList, true, none)
    else (title, true, none)
  | .error err =>
    if err.isNotExist then ([], false, none)
    else ([], false, some (Error.os err))

/-- Returns `(title, stopHere, err)`. -/
def getShortTitle (w : World) (dpath : GoString) : GoString × Bool × Option Error :=
  if dpath = w.userObj.HomeDir then ("~".toList, true, none)
  else
    match readTitleFile w dpath with
    | (_, _, some err) => ([], false, some err)
    | (title, stopHere, none) =>
      if stopHere then (title, true, none)
      else
        let i := LastIndex dpath '/'
        if i < 0 then ([], false, some (Error.badDirectoryPath dpath))
        else
          let dname := dpath.drop (i + 1).toNat
          if dname = [] then (" ".toList, true, none)
          else if dname.head? = some '.' then (" ".toList, true, none)
          else
            match w.Stat dpath with
            | .error err =>
              if err.isNotExist || err.isPermission then (dpath, true, none)
              else ([], false, some (Error.os err))
            | .ok stat =>
              match stat.Sys with
              | some dirUid =>
                if w.userObj.Uid ≠ "0".toList ∧ Sprintf_d dirUid ≠ w.userObj.Uid then
                  (dpath, true, none)
                else (dname, false, none)
              | none => (dname, false, none)

/-- The `for i := len(parts); i > stopIndex; i -= 1` loop of `getLongTitle`,
started at `i` with the titles collected so far: the collected titles, or the
error that made the function return.  `stopIndex` is at least 1 when the loop
is reached, so it is a natural number and the test `i > stopIndex` fails at
`i = 0`. -/
def getLongTitleLoop (w : World) (parts : List GoString) (stopIndex : Nat) :
    Nat → List GoString → Except Error (List GoString)
  | 0, titleParts => .ok titleParts
  | i + 1, titleParts =>
    if i + 1 > stopIndex then
      match getShortTitle w (Join (parts.take (i + 1)) "/".toList) with
      | (_, _, some err) => .error err
      | (titlePart, isSet, none) =>
        if isSet then .ok (titleParts ++ [titlePart])
        else getLongTitleLoop w parts stopIndex i (titleParts ++ [titlePart])
    else .ok titleParts

/-- The value of `stopIndex` when the loop starts: `len(parts) - 3`, raised to
1 when smaller. -/
def stopIndex (parts : List GoString) : Nat :=
  let stopIndex : Int := (parts.length : Int) - 3
  (if stopIndex < 1 then 1 else stopIndex).toNat

/-- Returns `(title, err)`. -/
def getLongTitle (w : World) (dpath : GoString) : GoString × Option Error :=
  if dpath = w.userObj.HomeDir then ("~".toList, none)
  else
    match readTitleFile w dpath with
    | (_, _, some err) => ([], some err)
    | (title, stopHere, none) =>
      if stopHere then (title, none)
      else
        let parts := Split dpath '/'
        if parts.length = 0 then ([], some (Error.badDirectoryPath dpath))
        else
          match getLongTitleLoop w parts (stopIndex parts) parts.length [] with
          | .error err => ([], some err)
          | .ok titleParts => (Join titleParts (titleSep w), none)

/-! ## Vocabulary of the statements -/

/-- The directory `dpath` has no override file: reading its title file fails
with a not-exist error. -/
def NoOverride (w : World) (dpath : GoString) : Prop :=
  ∃ err, w.ReadFile (titleFile w dpath) = .error err ∧ err.isNotExist = true

/-- The override file of `dpath` exists and is readable, with this content. -/
def HasOverride (w : World) (dpath content : GoString) : Prop :=
  w.ReadFile (titleFile w dpath) = .ok content

/-- The title an override file with this content stands for: the content
without its surrounding white space, or `Terminal` when nothing is left. -/
def overrideTitle (content : GoString) : GoString :=
  if TrimSpace content = [] then "Terminal".toList else TrimSpace content

/-- The directory `dpath` exists and its owner is the invoking user. -/
def OwnedByInvoker (w : World) (dpath : GoString) : Prop :=
  ∃ stat dirUid, w.Stat dpath = .ok stat ∧ stat.Sys = some dirUid ∧
    Sprintf_d dirUid = w.userObj.Uid

/-! ## The walk of `getLongTitle`, as a list of paths -/

/-- The paths the walk of `getLongTitle` can reach, innermost first: with
`parts` the path split on `/` and `n` their number, the `k`-th one joins the
first `n - k` parts, for `k` below `min 3 (n - 1)`. -/
def walkPaths (dpath : GoString) : List GoString :=
  let parts := Split dpath '/'
  (List.range (min 3 (parts.length - 1))).map
    (fun k => Join (parts.take (parts.length - k)) "/".toList)

/-- The elements of a list up to and including the first one that satisfies
`p`. -/
def takeThrough {α : Type} (p : α → Bool) : List α → List α
  | [] => []
  | a :: l => if p a then [a] else a :: takeThrough p l

/-- The results of `getShortTitle` on the paths of the walk, up to and
including the first one that says stop. -/
def walkResults (w : World) (dpath : GoString) : List (GoString × Bool × Option Error) :=
  takeThrough (fun r => r.2.1) ((walkPaths dpath).map (getShortTitle w))

/-- The loop of `getLongTitle` run over an explicit list of paths. -/
def walkList (w : World) : List GoString → List GoString → Except Error (List GoString)
  | [], titleParts => .ok titleParts
  | p :: ps, titleParts =>
    match getShortTitle w p with
    | (_, _, some err) => .error err
    | (titlePart, isSet, none) =>
      if isSet then .ok (titleParts ++ [titlePart])
      else walkList w ps (titleParts ++ [titlePart])

/-! ## Example worlds -/

/-- Go's `filepath.Clean` on a Unix path: empty and `.` elements are dropped,
`..` removes the element before it (at the root it is dropped, at the start
of a relative path it is kept). -/
def cleanElems (rooted : Bool) : List GoString → List GoString → List GoString
  | [], out => out.reverse
  | e :: es, out =>
    if e = [] ∨ e = ".".toList then cleanElems rooted es out
    else if e = "..".toList then
      match out with
      | o :: os =>
        if o = "..".toList then cleanElems rooted es (e :: out)
        else cleanElems rooted es os
      | [] => if rooted then cleanElems rooted es [] else cleanElems rooted es [e]
    else cleanElems rooted es (e :: out)

def filepathClean (path : GoString) : GoString :=
  if path = [] then ".".toList
  else
    let rooted := path.head? = some '/'
    let out := "/".toList.intercalate (cleanElems rooted (path.splitOn '/') [])
    if rooted then '/' :: out
    else if out = [] then ".".toList else out

/-- Go's `filepath.Join` on Unix: the non-empty elements joined by `/`, then
cleaned; the empty string when there is none. -/
def filepathJoin (elem : List GoString) : GoString :=
  let elem := elem.filter (fun e => e ≠ [])
  if elem = [] then [] else filepathClean ("/".toList.intercalate elem)

/-- The error of a missing file or directory. -/
def errNotExist : OSError := ⟨true, false, "no such file or directory".toList⟩

/-- A world given by its user, its readable files with their content and its
directories with their owner; everything else does not exist and no
environment variable is set. -/
def mkWorld (user : User) (files : List (GoString × GoString))
    (dirs : List (GoString × Nat)) : World where
  userObj := user
  Getenv := fun _ => []
  Stat := fun name =>
    match dirs.lookup name with
    | some uid => .ok ⟨true, some uid⟩
    | none => .error errNotExist
  ReadFile := fun name =>
    match files.lookup name with
    | some data => .ok data
    | none => .error errNotExist
  Join := filepathJoin

/-- The user `alice`, uid 1000, at home in `/home/alice`. -/
def alice : User := ⟨"1000".toList, "alice".toList, "/home/alice".toList⟩

/-- The world of `alice` with her home and the directories down to
`projects/foo/src/lib` in it, all hers, the directories above her home and
`/etc/cron.d` owned by uid 0, and no override file. -/
def aliceWorld : World :=
  mkWorld alice []
    [("/".toList, 0), ("/home".toList, 0), ("/home/alice".toList, 1000),
     ("/home/alice/projects".toList, 1000), ("/home/alice/projects/foo".toList, 1000),
     ("/home/alice/projects/foo/src".toList, 1000),
     ("/home/alice/projects/foo/src/lib".toList, 1000),
     ("/etc".toList, 0), ("/etc/cron.d".toList, 0)]

/-- The world of `alice` with three override files: one for her home, one for
the hidden directory `/home/alice/.config` and one, holding only white space,
for `/srv/app`. -/
def overrideWorld : World :=
  mkWorld alice
    [("/home/alice/.dirtitle/home/alice.title".toList, "Home\n".toList),
     ("/home/alice/.dirtitle/home/alice/.config.title".toList, " Config\n".toList),
     ("/home/alice/.dirtitle/srv/app.title".toList, " \t\n".toList)]
    [("/home/alice".toList, 1000), ("/home/alice/.config".toList, 1000),
     ("/srv".toList, 0), ("/srv/app".toList, 0)]

/-- The error of a read or stat the user has no right to. -/
def errPermission : OSError := ⟨false, true, "permission denied".toList⟩

/-- An error that is neither not-exist nor permission. -/
def errInputOutput : OSError := ⟨false, false, "input/output error".toList⟩

/-- The world of `alice` in which the override file of `/home/alice/projects`
may not be read and the stat of `/mnt/disk` fails with an input/output error. -/
def brokenWorld : World :=
  { aliceWorld with
    Stat := fun name =>
      if name = "/mnt/disk".toList then .error errInputOutput else aliceWorld.Stat name
    ReadFile := fun name =>
      if name = "/home/alice/.dirtitle/home/alice/projects.title".toList then
        .error errPermission
      else aliceWorld.ReadFile name }

/-! ## The command overlay and the top level -/

/-- Go's `strings.HasPrefix`. -/
def HasPrefix (s pre : GoString) : Bool :=
  pre.isPrefixOf s

/-- Go's `strings.Contains`: `substr` starts at some position of `s`. -/
def Contains (s substr : GoString) : Bool :=
  s.tails.any (fun t => substr.isPrefixOf t)

/-- The result of `getRunningCommand`.  `parts[0]` exists because
`strings.Split` never returns an empty slice. -/
def getRunningCommand (w : World) : GoString :=
  let cmd := w.Getenv "BASH_COMMAND".toList
  if cmd ≠ [] then
    let parts := Split cmd ' '
    let cmdEx := parts.headD []
    if cmdEx ∈ [".".toList, "source".toList, "test".toList, "[".toList, "cd".toList,
        "export".toList, "eval".toList, "printf".toList] then []
    else if Contains cmd "\x1b]0".toList then []
    else if Contains cmd "direnv".toList then []
    else if HasPrefix cmd "[".toList then []
    else if Contains cmd "dirtitle".toList then []
    else if Contains cmd "dir-title".toList then []
    else
      let histLastCmd := w.Getenv "HIST_LAST_COMMAND".toList
      if histLastCmd ≠ [] then histLastCmd else cmd
  else []

/-- The result of `getTitleWithOpts`: the title it returns, or the error it
hands to `exitWithError`, which prints it and ends the process with status 1.
The two nested tests `showCommand` and `cmd != ""` are one conjunction here;
both fall through to the same code. -/
def getTitleWithOpts (w : World) (dpath : GoString) (long showCommand : Bool) :
    Except Error GoString :=
  if showCommand = true ∧ getRunningCommand w ≠ [] then
    match getShortTitle w dpath with
    | (_, _, some err) => .error err
    | (title, _, none) => .ok (title ++ ": ".toList ++ getRunningCommand w)
  else if long then
    match getLongTitle w dpath with
    | (_, some err) => .error err
    | (title, none) => .ok title
  else
    match getShortTitle w dpath with
    | (_, _, some err) => .error err
    | (title, _, none) => .ok title

/-! ## Vocabulary of the statements about commands -/

/-- The built-ins that `getRunningCommand` treats as noise. -/
def noiseBuiltins : List GoString :=
  [".".toList, "source".toList, "test".toList, "[".toList, "cd".toList,
    "export".toList, "eval".toList, "printf".toList]

/-- The first space-delimited token of a command line: the text before its
first space, the whole line when it has none. -/
def firstSpaceToken (cmd : GoString) : GoString :=
  cmd.takeWhile (fun c => c ≠ ' ')

/-- The first white-space-delimited token of a command line: after the leading
white space, the text before the next white space. -/
def firstField (cmd : GoString) : GoString :=
  (cmd.dropWhile isSpace).takeWhile (fun c => !isSpace c)

/-- The command line triggers one of the substring or prefix guards. -/
def Guarded (cmd : GoString) : Prop :=
  "\x1b]0".toList <:+: cmd ∨ "direnv".toList <:+: cmd ∨ "[".toList <+: cmd ∨
    "dirtitle".toList <:+: cmd ∨ "dir-title".toList <:+: cmd

instance decidableGuarded (cmd : GoString) : Decidable (Guarded cmd) := by
  unfold Guarded
  infer_instance

/-- The world `w` with the environment variable `name` set to `value`. -/
def setenv (w : World) (name value : GoString) : World :=
  { w with Getenv := fun n => if n = name then value else w.Getenv n }

/-- The world of `alice` with `BASH_COMMAND` and `HIST_LAST_COMMAND` set. -/
def commandWorld (cmd hist : GoString) : World :=
  setenv (setenv aliceWorld "BASH_COMMAND".toList cmd) "HIST_LAST_COMMAND".toList hist

/-! ## The override store -/

theorem readTitleFile_of_hasOverride {w : World} {dpath content : GoString}
    (h : HasOverride w dpath content) :
    readTitleFile w dpath = (overrideTitle content, true, none) := by
  unfold HasOverride at h
  unfold readTitleFile overrideTitle
  rw [h]
  by_cases ht : TrimSpace content = [] <;> simp [ht]

theorem readTitleFile_of_noOverride {w : World} {dpath : GoString}
    (h : NoOverride w dpath) : readTitleFile w dpath = ([], false, none) := by
  obtain ⟨err, hread, hne⟩ := h
  unfold readTitleFile
  rw [hread]
  simp [hne]

theorem readTitleFile_of_error {w : World} {dpath : GoString} {err : OSError}
    (hread : w.ReadFile (titleFile w dpath) = .error err) (hne : err.isNotExist = false) :
    readTitleFile w dpath = ([], false, some (Error.os err)) := by
  unfold readTitleFile
  rw [hread]
  simp [hne]

theorem trimSpace_head_not_space (s : GoString) (c : Char)
    (h : (TrimSpace s).head? = some c) : isSpace c = false := by
  unfold TrimSpace at h
  obtain ⟨t, ht⟩ := List.rdropWhile_prefix isSpace (l := s.dropWhile isSpace)
  have hne : List.rdropWhile isSpace (s.dropWhile isSpace) ≠ [] := by
    intro h0
    rw [h0] at h
    simp at h
  have hd : (s.dropWhile isSpace).head? = some c := by
    rw [← ht, List.head?_append_of_ne_nil _ hne]
    exact h
  have hnot := List.head?_dropWhile_not isSpace s
  rw [hd] at hnot
  exact hnot

theorem trimSpace_getLast_not_space (s : GoString) (c : Char)
    (h : (TrimSpace s).getLast? = some c) : isSpace c = false := by
  unfold TrimSpace at h
  have hne : List.rdropWhile isSpace (s.dropWhile isSpace) ≠ [] := by
    intro h0
    rw [h0] at h
    simp at h
  have hlast := List.rdropWhile_last_not (p := isSpace) (l := s.dropWhile isSpace) hne
  rw [List.getLast?_eq_getLast _ hne] at h
  injection h with h
  rw [h] at hlast
  simpa using hlast

/-- An override title is never empty and has no white space at either end. -/
theorem overrideTitle_trimmed (content : GoString) :
    overrideTitle content ≠ [] ∧
      (∀ c, (overrideTitle content).head? = some c → isSpace c = false) ∧
      (∀ c, (overrideTitle content).getLast? = some c → isSpace c = false) := by
  unfold overrideTitle
  by_cases ht : TrimSpace content = []
  · simp only [ht, if_true]
    refine ⟨by decide, ?_, ?_⟩
    · intro c hc
      have : c = 'T' := by simpa using hc.symm
      subst this
      decide
    · intro c hc
      have : c = 'l' := by simpa using hc.symm
      subst this
      decide
  · simp only [ht, if_false]
    exact ⟨ht, trimSpace_head_not_space content, trimSpace_getLast_not_space content⟩

/-! ## The final segment of a path -/

theorem lastIndex_append_slash (pre seg : GoString) (hseg : '/' ∉ seg) :
    LastIndex (pre ++ '/' :: seg) '/' = (pre.length : Int) := by
  unfold LastIndex
  have hmem : '/' ∈ pre ++ '/' :: seg := by simp
  rw [if_pos hmem]
  have hrev : (pre ++ '/' :: seg).reverse = seg.reverse ++ '/' :: pre.reverse := by simp
  have hnot : '/' ∉ seg.reverse := by simpa using hseg
  rw [hrev, List.indexOf_append_of_not_mem hnot, List.indexOf_cons_self]
  simp

theorem lastIndex_of_not_mem (s : GoString) (h : '/' ∉ s) : LastIndex s '/' = -1 := by
  unfold LastIndex
  rw [if_neg h]

/-- What `getShortTitle` does on a path `pre/seg` that is not the home
directory and has no override file. -/
theorem getShortTitle_of_noOverride (w : World) (pre seg : GoString) (hseg : '/' ∉ seg)
    (hhome : pre ++ '/' :: seg ≠ w.userObj.HomeDir)
    (hno : NoOverride w (pre ++ '/' :: seg)) :
    getShortTitle w (pre ++ '/' :: seg) =
      if seg = [] then (" ".toList, true, none)
      else if seg.head? = some '.' then (" ".toList, true, none)
      else
        match w.Stat (pre ++ '/' :: seg) with
        | .error err =>
          if err.isNotExist || err.isPermission then (pre ++ '/' :: seg, true, none)
          else ([], false, some (Error.os err))
        | .ok stat =>
          match stat.Sys with
          | some dirUid =>
            if w.userObj.Uid ≠ "0".toList ∧ Sprintf_d dirUid ≠ w.userObj.Uid then
              (pre ++ '/' :: seg, true, none)
            else (seg, false, none)
          | none => (seg, false, none) := by
  unfold getShortTitle
  rw [if_neg hhome, readTitleFile_of_noOverride hno]
  have hdrop : List.drop (pre.length + 1) (pre ++ '/' :: seg) = seg := by
    rw [List.drop_append_eq_append_drop]
    simp
  simp only [lastIndex_append_slash pre seg hseg]
  have h1 : ¬ ((pre.length : Int) < 0) := by omega
  have h2 : ((pre.length : Int) + 1).toNat = pre.length + 1 := by omega
  simp only [h1, h2, hdrop, if_false, Bool.false_eq_true]

/-! ## The walk lemmas -/

theorem takeThrough_length_le {α : Type} (p : α → Bool) (l : List α) :
    (takeThrough p l).length ≤ l.length := by
  induction l with
  | nil => simp [takeThrough]
  | cons a l ih =>
    unfold takeThrough
    split
    · simp
    · simp only [List.length_cons]
      omega

theorem takeThrough_eq_self {α : Type} (p : α → Bool) (l : List α)
    (h : ∀ a ∈ l, p a = false) : takeThrough p l = l := by
  induction l with
  | nil => rfl
  | cons a l ih =>
    unfold takeThrough
    rw [h a (List.mem_cons_self a l)]
    simp only [Bool.false_eq_true, if_false]
    rw [ih (fun b hb => h b (List.mem_cons_of_mem a hb))]

theorem takeThrough_dropLast {α : Type} (p : α → Bool) (l : List α) :
    ∀ a ∈ (takeThrough p l).dropLast, p a = false := by
  induction l with
  | nil => simp [takeThrough]
  | cons a l ih =>
    unfold takeThrough
    by_cases hp : p a = true
    · simp [hp]
    · rw [if_neg hp]
      intro b hb
      cases hl : takeThrough p l with
      | nil => rw [hl] at hb; simp at hb
      | cons c t =>
        rw [hl, List.dropLast_cons₂] at hb
        rcases List.mem_cons.mp hb with rfl | hb
        · simpa using hp
        · exact ih b (hl ▸ hb)

theorem takeThrough_getLast {α : Type} (p : α → Bool) (l : List α)
    (h : ∃ a ∈ l, p a = true) :
    ∃ b, (takeThrough p l).getLast? = some b ∧ p b = true := by
  induction l with
  | nil => simp at h
  | cons a l ih =>
    unfold takeThrough
    by_cases hp : p a = true
    · exact ⟨a, by simp [hp], hp⟩
    · rw [if_neg hp]
      obtain ⟨c, hc, hpc⟩ := h
      have hcl : c ∈ l := by
        rcases List.mem_cons.mp hc with rfl | hc
        · exact absurd hpc hp
        · exact hc
      obtain ⟨b, hb, hpb⟩ := ih ⟨c, hcl, hpc⟩
      refine ⟨b, ?_, hpb⟩
      cases ht : takeThrough p l with
      | nil => rw [ht] at hb; simp at hb
      | cons d t =>
        rw [ht] at hb
        rw [List.getLast?_cons_cons]
        exact hb

theorem getLongTitleLoop_eq_walkList (w : World) (parts : List GoString) (stop : Nat)
    (i : Nat) (titleParts : List GoString) :
    getLongTitleLoop w parts stop i titleParts =
      walkList w
        ((List.range (i - stop)).map (fun k => Join (parts.take (i - k)) "/".toList))
        titleParts := by
  induction i generalizing titleParts with
  | zero => simp [getLongTitleLoop, walkList]
  | succ i ih =>
    unfold getLongTitleLoop
    by_cases hgt : i + 1 > stop
    · rw [if_pos hgt]
      have hsub : i + 1 - stop = (i - stop) + 1 := by omega
      rw [hsub, List.range_succ_eq_map, List.map_cons, List.map_map]
      have hfun : ((fun k => Join (List.take (i + 1 - k) parts) "/".toList) ∘ Nat.succ) =
          (fun k => Join (List.take (i - k) parts) "/".toList) := by
        funext k
        simp [Nat.succ_eq_add_one]
      rw [hfun]
      simp only [walkList, Nat.sub_zero]
      split
      · rfl
      · split
        · rfl
        · exact ih _
    · rw [if_neg hgt]
      have hsub : i + 1 - stop = 0 := by omega
      rw [hsub]
      simp [walkList]

theorem length_sub_stopIndex (parts : List GoString) :
    parts.length - stopIndex parts = min 3 (parts.length - 1) := by
  unfold stopIndex
  simp only
  split <;> omega

theorem split_length_pos (s : GoString) (sep : Char) : 0 < (Split s sep).length := by
  unfold Split List.splitOn
  exact List.length_pos.mpr (List.splitOnP_ne_nil _ _)

/-- Beyond the home and override tests, `getLongTitle` is the walk over
`walkPaths`. -/
theorem getLongTitle_of_noOverride (w : World) (dpath : GoString)
    (hhome : dpath ≠ w.userObj.HomeDir) (hno : NoOverride w dpath) :
    getLongTitleLoop w (Split dpath '/') (stopIndex (Split dpath '/'))
        (Split dpath '/').length [] = walkList w (walkPaths dpath) [] ∧
    getLongTitle w dpath =
      match walkList w (walkPaths dpath) [] with
      | .error err => ([], some err)
      | .ok titleParts => (Join titleParts (titleSep w), none) := by
  have hloop : getLongTitleLoop w (Split dpath '/') (stopIndex (Split dpath '/'))
        (Split dpath '/').length [] = walkList w (walkPaths dpath) [] := by
    rw [getLongTitleLoop_eq_walkList, length_sub_stopIndex]
    rfl
  refine ⟨hloop, ?_⟩
  unfold getLongTitle
  rw [if_neg hhome, readTitleFile_of_noOverride hno]
  have hlen : ¬ (Split dpath '/').length = 0 := by
    have := split_length_pos dpath '/'
    omega
  simp only [Bool.false_eq_true, if_false, hlen, hloop]

theorem walkList_ok (w : World) (ps : List GoString) (titleParts : List GoString)
    (hok : ∀ r ∈ takeThrough (fun r => r.2.1) (ps.map (getShortTitle w)), r.2.2 = none) :
    walkList w ps titleParts =
      .ok (titleParts ++
        (takeThrough (fun r => r.2.1) (ps.map (getShortTitle w))).map (fun r => r.1)) := by
  induction ps generalizing titleParts with
  | nil => simp [walkList, takeThrough]
  | cons p ps ih =>
    simp only [List.map_cons, takeThrough] at hok ⊢
    unfold walkList
    rcases hres : getShortTitle w p with ⟨t, isSet, err⟩
    rw [hres] at hok
    cases isSet with
    | true =>
      have herr : err = none := by simpa using hok
      subst herr
      simp
    | false =>
      simp only [Bool.false_eq_true, if_false, List.mem_cons, forall_eq_or_imp] at hok
      have herr : err = none := hok.1
      subst herr
      simp only [Bool.false_eq_true, if_false]
      rw [ih _ hok.2]
      simp

theorem walkList_error (w : World) (pre : List GoString) (p : GoString)
    (post titleParts : List GoString) (err : Error)
    (hpre : ∀ q ∈ pre, (getShortTitle w q).2.1 = false ∧ (getShortTitle w q).2.2 = none)
    (hp : (getShortTitle w p).2.2 = some err) :
    walkList w (pre ++ p :: post) titleParts = .error err := by
  induction pre generalizing titleParts with
  | nil =>
    simp only [List.nil_append]
    unfold walkList
    rcases hres : getShortTitle w p with ⟨t, isSet, e⟩
    rw [hres] at hp
    simp only at hp
    subst hp
    rfl
  | cons q pre ih =>
    simp only [List.cons_append]
    unfold walkList
    have hq := hpre q (List.mem_cons_self q pre)
    rcases hres : getShortTitle w q with ⟨t, isSet, e⟩
    rw [hres] at hq
    simp only at hq
    obtain ⟨h1, h2⟩ := hq
    subst h1
    subst h2
    simp only [Bool.false_eq_true, if_false]
    exact ih _ (fun r hr => hpre r (List.mem_cons_of_mem q hr))

theorem walkList_ok_titles (w : World) (ps : List GoString) (titleParts res : List GoString)
    (h : walkList w ps titleParts = .ok res) :
    ∃ qs : List GoString, qs.length ≤ ps.length ∧ (∀ q ∈ qs, (getShortTitle w q).2.2 = none) ∧
      res = titleParts ++ qs.map (fun q => (getShortTitle w q).1) := by
  induction ps generalizing titleParts with
  | nil =>
    simp only [walkList, Except.ok.injEq] at h
    exact ⟨[], by simp, by simp, by simp [h]⟩
  | cons p ps ih =>
    unfold walkList at h
    rcases hres : getShortTitle w p with ⟨t, isSet, e⟩
    rw [hres] at h
    cases e with
    | some e => simp at h
    | none =>
      cases isSet with
      | true =>
        simp only [if_true, Except.ok.injEq] at h
        exact ⟨[p], by simp, by simp [hres], by simp [hres, h]⟩
      | false =>
        simp only [Bool.false_eq_true, if_false] at h
        obtain ⟨qs, hlen, herr, hq⟩ := ih _ h
        refine ⟨p :: qs, by simp; omega, ?_, ?_⟩
        · intro q hq
          rcases List.mem_cons.mp hq with rfl | hq
          · simp [hres]
          · exact herr q hq
        · simp [hq, hres]

theorem walkPaths_length (dpath : GoString) :
    (walkPaths dpath).length = min 3 ((Split dpath '/').length - 1) := by
  simp [walkPaths]

theorem walkPaths_head (dpath : GoString) (h : 2 ≤ (Split dpath '/').length) :
    (walkPaths dpath).head? = some dpath := by
  unfold walkPaths
  simp only
  have hm : min 3 ((Split dpath '/').length - 1) = (min 3 ((Split dpath '/').length - 1) - 1) + 1 := by
    omega
  rw [hm, List.range_succ_eq_map]
  simp only [List.map_cons, List.head?_cons, Nat.sub_zero, List.take_length]
  unfold Join Split
  have : "/".toList = ['/'] := rfl
  rw [this, List.intercalate_splitOn]

theorem trimSpace_spec (s : GoString) :
    ∃ l r : GoString, s = l ++ TrimSpace s ++ r ∧
      (∀ c ∈ l, isSpace c = true) ∧ (∀ c ∈ r, isSpace c = true) := by
  refine ⟨s.takeWhile isSpace, (s.dropWhile isSpace).rtakeWhile isSpace, ?_, ?_, ?_⟩
  · have h1 : List.rdropWhile isSpace (s.dropWhile isSpace) ++
        List.rtakeWhile isSpace (s.dropWhile isSpace) = s.dropWhile isSpace := by
      unfold List.rdropWhile List.rtakeWhile
      rw [← List.reverse_append, List.takeWhile_append_dropWhile, List.reverse_reverse]
    unfold TrimSpace
    rw [List.append_assoc, h1, List.takeWhile_append_dropWhile]
  · intro c hc
    exact List.mem_takeWhile_imp hc
  · intro c hc
    exact List.mem_rtakeWhile_imp hc

/-- The plain case of `getShortTitle`: a named, visible directory that exists
and that the rules let the invoker see yields its name and lets the walk go
on. -/
theorem getShortTitle_plain (w : World) (pre seg : GoString) (hseg : '/' ∉ seg)
    (hne : seg ≠ []) (hdot : seg.head? ≠ some '.')
    (hhome : pre ++ '/' :: seg ≠ w.userObj.HomeDir)
    (hno : NoOverride w (pre ++ '/' :: seg))
    (stat : FileInfo) (hstat : w.Stat (pre ++ '/' :: seg) = .ok stat)
    (hown : stat.Sys = none ∨ w.userObj.Uid = "0".toList ∨
      ∃ dirUid, stat.Sys = some dirUid ∧ Sprintf_d dirUid = w.userObj.Uid) :
    getShortTitle w (pre ++ '/' :: seg) = (seg, false, none) := by
  rw [getShortTitle_of_noOverride w pre seg hseg hhome hno, if_neg hne, if_neg hdot, hstat]
  simp only []
  rcases hown with h | h | ⟨dirUid, h, hd⟩
  · simp only [h]
  · split
    · rw [if_neg (fun hc => hc.1 h)]
    · rfl
  · simp only [h]
    rw [if_neg (fun hc => hc.2 hd)]

theorem getShortTitle_of_readError (w : World) (dpath : GoString) (err : OSError)
    (hhome : dpath ≠ w.userObj.HomeDir)
    (hread : w.ReadFile (titleFile w dpath) = .error err) (hne : err.isNotExist = false) :
    getShortTitle w dpath = ([], false, some (Error.os err)) := by
  unfold getShortTitle
  rw [if_neg hhome, readTitleFile_of_error hread hne]

theorem getLongTitle_of_readError (w : World) (dpath : GoString) (err : OSError)
    (hhome : dpath ≠ w.userObj.HomeDir)
    (hread : w.ReadFile (titleFile w dpath) = .error err) (hne : err.isNotExist = false) :
    getLongTitle w dpath = ([], some (Error.os err)) := by
  unfold getLongTitle
  rw [if_neg hhome, readTitleFile_of_error hread hne]

theorem join_singleton (t sep : GoString) : Join [t] sep = t := by
  simp [Join, List.intercalate]

/-! ## The claims -/

/-- C1, as stated, fails: in the world of `alice`, where the hypotheses of
the scenario hold, the long title of `/home/alice/projects/foo` is
`foo ‹- projects ‹- ~`, not `projects ‹- foo`. -/
theorem C1_counterexample :
    aliceWorld.userObj.HomeDir = "/home/alice".toList ∧
    (∀ p, NoOverride aliceWorld p) ∧
    (∀ p ∈ ["/home/alice/projects/foo".toList, "/home/alice/projects".toList,
        "/home/alice".toList], OwnedByInvoker aliceWorld p) ∧
    titleSep aliceWorld = " ‹- ".toList ∧
    getLongTitle aliceWorld "/home/alice/projects/foo".toList =
      ("foo ‹- projects ‹- ~".toList, none) ∧
    getLongTitle aliceWorld "/home/alice/projects/foo".toList ≠
      ("projects ‹- foo".toList, none) := by
  refine ⟨rfl, fun p => ⟨errNotExist, rfl, rfl⟩, ?_, by decide, by decide, by decide⟩
  intro p hp
  simp only [List.mem_cons, List.mem_singleton, List.not_mem_nil, or_false] at hp
  rcases hp with rfl | rfl | rfl <;> exact ⟨⟨true, some 1000⟩, 1000, rfl, rfl, rfl⟩

/-- C1, amended: with home directory `/home/alice`, no override files, every
visited directory existing and owned by the invoking user, and the default
separator, `getLongTitle` on `/home/alice/projects/foo` returns
`foo ‹- projects ‹- ~`: innermost first, up to and including the home
directory. -/
theorem C1_longTitle_alice (w : World)
    (hhome : w.userObj.HomeDir = "/home/alice".toList)
    (hno : ∀ p, NoOverride w p)
    (hown : ∀ p ∈ ["/home/alice/projects/foo".toList, "/home/alice/projects".toList,
        "/home/alice".toList], OwnedByInvoker w p)
    (hsep : titleSep w = " ‹- ".toList) :
    getLongTitle w "/home/alice/projects/foo".toList =
      ("foo ‹- projects ‹- ~".toList, none) := by
  have hfoo : getShortTitle w "/home/alice/projects/foo".toList =
      ("foo".toList, false, none) := by
    obtain ⟨stat, uid, hstat, hsys, huid⟩ :=
      hown "/home/alice/projects/foo".toList (by simp)
    exact getShortTitle_plain w "/home/alice/projects".toList "foo".toList (by decide)
      (by decide) (by decide) (by rw [hhome]; decide) (hno _) stat hstat
      (Or.inr (Or.inr ⟨uid, hsys, huid⟩))
  have hproj : getShortTitle w "/home/alice/projects".toList =
      ("projects".toList, false, none) := by
    obtain ⟨stat, uid, hstat, hsys, huid⟩ :=
      hown "/home/alice/projects".toList (by simp)
    exact getShortTitle_plain w "/home/alice".toList "projects".toList (by decide)
      (by decide) (by decide) (by rw [hhome]; decide) (hno _) stat hstat
      (Or.inr (Or.inr ⟨uid, hsys, huid⟩))
  have hhomeT : getShortTitle w "/home/alice".toList = ("~".toList, true, none) := by
    unfold getShortTitle
    rw [if_pos hhome.symm]
  have hpaths : walkPaths "/home/alice/projects/foo".toList =
      ["/home/alice/projects/foo".toList, "/home/alice/projects".toList,
        "/home/alice".toList] := by decide
  rw [(getLongTitle_of_noOverride w _ (by rw [hhome]; decide) (hno _)).2, hpaths]
  simp only [walkList, hfoo, hproj, hhomeT, Bool.false_eq_true, if_false, if_true, hsep]
  decide

/-- C1, amended, in the world of `alice`. -/
theorem C1_longTitle_alice_witness :
    getLongTitle aliceWorld "/home/alice/projects/foo".toList =
      ("foo ‹- projects ‹- ~".toList, none) :=
  C1_longTitle_alice aliceWorld rfl (fun _ => ⟨errNotExist, rfl, rfl⟩)
    (fun p hp => by
      simp only [List.mem_cons, List.mem_singleton, List.not_mem_nil, or_false] at hp
      rcases hp with rfl | rfl | rfl <;> exact ⟨⟨true, some 1000⟩, 1000, rfl, rfl, rfl⟩)
    (by decide)

/-- C2, as stated, fails when a call of the walk returns an error: in the
world where the override file of `/home/alice/projects` may not be read, the
path `/home/alice/projects/foo` is not home and has no override file and its
walk has three levels, yet the walk ends at its second call, which returns an
error and not stop, and `getLongTitle` returns that error, not a join of short
titles. -/
theorem C2_counterexample :
    "/home/alice/projects/foo".toList ≠ brokenWorld.userObj.HomeDir ∧
    NoOverride brokenWorld "/home/alice/projects/foo".toList ∧
    min 3 ((Split "/home/alice/projects/foo".toList '/').length - 1) = 3 ∧
    getShortTitle brokenWorld "/home/alice/projects/foo".toList =
      ("foo".toList, false, none) ∧
    getShortTitle brokenWorld "/home/alice/projects".toList =
      ([], false, some (Error.os errPermission)) ∧
    getLongTitle brokenWorld "/home/alice/projects/foo".toList =
      ([], some (Error.os errPermission)) ∧
    getLongTitle brokenWorld "/home/alice/projects/foo".toList ≠
      (Join ((walkResults brokenWorld "/home/alice/projects/foo".toList).map (fun r => r.1))
        (titleSep brokenWorld), none) := by
  refine ⟨by decide, ⟨errNotExist, rfl, rfl⟩, by decide, by decide, by decide, by decide,
    by decide⟩

/-- C2, amended: for a path that is not the home directory and has no override
file, with `parts` the path split on `/` and `n` their number, the walk may
reach the `min 3 (n - 1)` paths of `walkPaths` (the `k`-th joins the first
`n - k` parts; the first is the path itself).  When no call of `getShortTitle`
up to and including the first that says stop fails, the loop collects exactly
the titles of these calls, innermost first, and `getLongTitle` returns them
joined by the separator.  When a call fails, every earlier one having
succeeded without stop, `getLongTitle` returns that error and no title.  If no
call says stop all `min 3 (n - 1)` levels are included; no included call but
the last says stop, and when some call says stop the last included one
does. -/
theorem C2_walk (w : World) (dpath : GoString)
    (hhome : dpath ≠ w.userObj.HomeDir) (hno : NoOverride w dpath) :
    ((∀ r ∈ walkResults w dpath, r.2.2 = none) →
      getLongTitleLoop w (Split dpath '/') (stopIndex (Split dpath '/'))
          (Split dpath '/').length [] = .ok ((walkResults w dpath).map (fun r => r.1)) ∧
      getLongTitle w dpath =
        (Join ((walkResults w dpath).map (fun r => r.1)) (titleSep w), none)) ∧
    (∀ (pre : List GoString) (p : GoString) (post : List GoString) (err : Error),
      walkPaths dpath = pre ++ p :: post →
      (∀ q ∈ pre, (getShortTitle w q).2.1 = false ∧ (getShortTitle w q).2.2 = none) →
      (getShortTitle w p).2.2 = some err →
      getLongTitleLoop w (Split dpath '/') (stopIndex (Split dpath '/'))
          (Split dpath '/').length [] = .error err ∧
      getLongTitle w dpath = ([], some err)) ∧
    (walkPaths dpath).length = min 3 ((Split dpath '/').length - 1) ∧
    (2 ≤ (Split dpath '/').length → (walkPaths dpath).head? = some dpath) ∧
    ((∀ p ∈ walkPaths dpath, (getShortTitle w p).2.1 = false) →
      walkResults w dpath = (walkPaths dpath).map (getShortTitle w)) ∧
    (∀ r ∈ (walkResults w dpath).dropLast, r.2.1 = false) ∧
    ((∃ p ∈ walkPaths dpath, (getShortTitle w p).2.1 = true) →
      ∃ r, (walkResults w dpath).getLast? = some r ∧ r.2.1 = true) := by
  obtain ⟨hloop, hlong⟩ := getLongTitle_of_noOverride w dpath hhome hno
  refine ⟨?_, ?_, walkPaths_length dpath, walkPaths_head dpath, ?_, ?_, ?_⟩
  · intro hok
    have hwalk := walkList_ok w (walkPaths dpath) [] hok
    constructor
    · rw [hloop, hwalk]
      rfl
    · rw [hlong, hwalk]
      rfl
  · intro pre p post err hpaths hpre hp
    have hwalk := walkList_error w pre p post [] err hpre hp
    constructor
    · rw [hloop, hpaths, hwalk]
    · rw [hlong, hpaths, hwalk]
  · intro hnostop
    unfold walkResults
    apply takeThrough_eq_self
    intro r hr
    obtain ⟨p, hp, rfl⟩ := List.mem_map.mp hr
    exact hnostop p hp
  · exact takeThrough_dropLast _ _
  · intro hstop
    obtain ⟨p, hp, hs⟩ := hstop
    exact takeThrough_getLast _ _ ⟨getShortTitle w p, List.mem_map.mpr ⟨p, hp, rfl⟩, hs⟩

/-- C2, amended, on a path five levels below the root, where only the three
innermost levels are visited, and on the path whose second call fails. -/
theorem C2_walk_witness :
    getLongTitle aliceWorld "/home/alice/projects/foo/src/lib".toList =
      ("lib ‹- src ‹- foo".toList, none) ∧
    getLongTitle brokenWorld "/home/alice/projects/foo".toList =
      ([], some (Error.os errPermission)) :=
  ⟨((C2_walk aliceWorld "/home/alice/projects/foo/src/lib".toList (by decide)
      ⟨errNotExist, rfl, rfl⟩).1 (by decide)).2,
   ((C2_walk brokenWorld "/home/alice/projects/foo".toList (by decide)
      ⟨errNotExist, rfl, rfl⟩).2.1 ["/home/alice/projects/foo".toList]
      "/home/alice/projects".toList ["/home/alice".toList] (Error.os errPermission)
      (by decide) (by decide) (by decide)).2⟩

/-- C3, as stated, fails at the home directory: with an override file for
`/home/alice` holding `Home`, both titles are `~`, not the override. -/
theorem C3_counterexample :
    HasOverride overrideWorld "/home/alice".toList "Home\n".toList ∧
    overrideTitle "Home\n".toList = "Home".toList ∧
    getShortTitle overrideWorld "/home/alice".toList = ("~".toList, true, none) ∧
    getLongTitle overrideWorld "/home/alice".toList = ("~".toList, none) ∧
    getShortTitle overrideWorld "/home/alice".toList ≠
      (overrideTitle "Home\n".toList, true, none) ∧
    getLongTitle overrideWorld "/home/alice".toList ≠
      (overrideTitle "Home\n".toList, none) := by
  refine ⟨rfl, by decide, by decide, by decide, by decide, by decide⟩

/-- C3, amended: for any path other than the home directory with an existing,
readable override file, `getShortTitle` and `getLongTitle` both return the
trimmed file content (`Terminal` if that is empty), and `getShortTitle` says
stop. -/
theorem C3_override_authoritative (w : World) (dpath content : GoString)
    (hhome : dpath ≠ w.userObj.HomeDir) (hov : HasOverride w dpath content) :
    getShortTitle w dpath = (overrideTitle content, true, none) ∧
    getLongTitle w dpath = (overrideTitle content, none) := by
  unfold getShortTitle getLongTitle
  simp only [if_neg hhome, readTitleFile_of_hasOverride hov, if_true, and_self]

/-- C3, amended, on `/srv/app`, whose override file holds only white space. -/
theorem C3_override_authoritative_witness :
    getShortTitle overrideWorld "/srv/app".toList = ("Terminal".toList, true, none) ∧
    getLongTitle overrideWorld "/srv/app".toList = ("Terminal".toList, none) :=
  C3_override_authoritative overrideWorld "/srv/app".toList " \t\n".toList (by decide) rfl

/-- C4: at the home directory `getShortTitle` returns `~` with stop and no
error and `getLongTitle` returns `~` with no error, in every world. -/
theorem C4_home_is_tilde (w : World) :
    getShortTitle w w.userObj.HomeDir = ("~".toList, true, none) ∧
    getLongTitle w w.userObj.HomeDir = ("~".toList, none) := by
  unfold getShortTitle getLongTitle
  simp

/-- C5, as stated, fails for a hidden directory with an override file:
`/home/alice/.config` has final segment `.config`, yet its short title is the
override `Config`, not the single space. -/
theorem C5_counterexample :
    "/home/alice/.config".toList = "/home/alice".toList ++ '/' :: ".config".toList ∧
    '/' ∉ ".config".toList ∧ (".config".toList).head? = some '.' ∧
    getShortTitle overrideWorld "/home/alice/.config".toList =
      ("Config".toList, true, none) ∧
    getShortTitle overrideWorld "/home/alice/.config".toList ≠ (" ".toList, true, none) := by
  refine ⟨by decide, by decide, by decide, by decide, by decide⟩

/-- C5, amended: for every path `pre/seg` that is not the home directory and
has no override file, if the final segment `seg` is empty or starts with `.`
then `getShortTitle` returns the single space with stop. -/
theorem C5_hidden_or_root (w : World) (pre seg : GoString) (hseg : '/' ∉ seg)
    (hhome : pre ++ '/' :: seg ≠ w.userObj.HomeDir)
    (hno : NoOverride w (pre ++ '/' :: seg))
    (hhidden : seg = [] ∨ seg.head? = some '.') :
    getShortTitle w (pre ++ '/' :: seg) = (" ".toList, true, none) := by
  rw [getShortTitle_of_noOverride w pre seg hseg hhome hno]
  rcases hhidden with h | h
  · rw [if_pos h]
  · rw [if_pos h]
    split <;> rfl

/-- C5, amended, on a hidden directory and on the root. -/
theorem C5_hidden_or_root_witness :
    getShortTitle aliceWorld "/home/alice/.cache".toList = (" ".toList, true, none) ∧
    getShortTitle aliceWorld "/".toList = (" ".toList, true, none) :=
  ⟨C5_hidden_or_root aliceWorld "/home/alice".toList ".cache".toList (by decide) (by decide)
      ⟨errNotExist, rfl, rfl⟩ (Or.inr rfl),
   C5_hidden_or_root aliceWorld [] [] (by decide) (by decide)
      ⟨errNotExist, rfl, rfl⟩ (Or.inl rfl)⟩

/-- C6: for a path `pre/seg` that is not home, has no override file and whose
final segment `seg` is non-empty and does not start with `.`, when stat
succeeds: if the invoker's uid is not `0` and the decimal owner uid differs
from it, `getShortTitle` returns the full path with stop; if the owner equals
the invoker, or the invoker's uid is `0`, or there is no owner information, it
returns the final segment without stop. -/
theorem C6_ownership_rule (w : World) (pre seg : GoString) (hseg : '/' ∉ seg)
    (hne : seg ≠ []) (hdot : seg.head? ≠ some '.')
    (hhome : pre ++ '/' :: seg ≠ w.userObj.HomeDir)
    (hno : NoOverride w (pre ++ '/' :: seg))
    (stat : FileInfo) (hstat : w.Stat (pre ++ '/' :: seg) = .ok stat) :
    (∀ dirUid, stat.Sys = some dirUid → w.userObj.Uid ≠ "0".toList →
        Sprintf_d dirUid ≠ w.userObj.Uid →
        getShortTitle w (pre ++ '/' :: seg) = (pre ++ '/' :: seg, true, none)) ∧
    ((stat.Sys = none ∨ w.userObj.Uid = "0".toList ∨
        ∃ dirUid, stat.Sys = some dirUid ∧ Sprintf_d dirUid = w.userObj.Uid) →
        getShortTitle w (pre ++ '/' :: seg) = (seg, false, none)) := by
  refine ⟨?_, getShortTitle_plain w pre seg hseg hne hdot hhome hno stat hstat⟩
  intro dirUid hsys hroot hdiff
  rw [getShortTitle_of_noOverride w pre seg hseg hhome hno, if_neg hne, if_neg hdot, hstat]
  simp only [hsys]
  rw [if_pos ⟨hroot, hdiff⟩]

/-- C6 on `/etc/cron.d`, owned by uid 0 while the invoker has uid 1000, and on
one of the invoker's own directories. -/
theorem C6_ownership_rule_witness :
    getShortTitle aliceWorld "/etc/cron.d".toList = ("/etc/cron.d".toList, true, none) ∧
    getShortTitle aliceWorld "/home/alice/projects".toList = ("projects".toList, false, none) :=
  ⟨(C6_ownership_rule aliceWorld "/etc".toList "cron.d".toList (by decide) (by decide)
      (by decide) (by decide) ⟨errNotExist, rfl, rfl⟩ ⟨true, some 0⟩ rfl).1 0 rfl
      (by decide) (by decide),
   (C6_ownership_rule aliceWorld "/home/alice".toList "projects".toList (by decide)
      (by decide) (by decide) (by decide) ⟨errNotExist, rfl, rfl⟩ ⟨true, some 1000⟩ rfl).2
      (Or.inr (Or.inr ⟨1000, rfl, rfl⟩))⟩

/-- C7: whenever `getLongTitle` succeeds, its title is the join, by the
separator, of the short titles of at most 4 paths. -/
theorem C7_at_most_four_titles (w : World) (dpath : GoString)
    (hsucc : (getLongTitle w dpath).2 = none) :
    ∃ paths : List GoString, paths.length ≤ 4 ∧
      (∀ p ∈ paths, (getShortTitle w p).2.2 = none) ∧
      (getLongTitle w dpath).1 =
        Join (paths.map (fun p => (getShortTitle w p).1)) (titleSep w) := by
  by_cases hhome : dpath = w.userObj.HomeDir
  · refine ⟨[dpath], by simp, ?_, ?_⟩
    · intro p hp
      rw [List.mem_singleton.mp hp]
      unfold getShortTitle
      rw [if_pos hhome]
    · unfold getLongTitle getShortTitle
      simp only [if_pos hhome, List.map_cons, List.map_nil, join_singleton]
  · cases hread : w.ReadFile (titleFile w dpath) with
    | ok content =>
      have hov : HasOverride w dpath content := hread
      have hs : getShortTitle w dpath = (overrideTitle content, true, none) := by
        unfold getShortTitle
        simp only [if_neg hhome, readTitleFile_of_hasOverride hov, if_true]
      have hl : getLongTitle w dpath = (overrideTitle content, none) := by
        unfold getLongTitle
        simp only [if_neg hhome, readTitleFile_of_hasOverride hov, if_true]
      refine ⟨[dpath], by simp, ?_, ?_⟩
      · intro p hp
        rw [List.mem_singleton.mp hp, hs]
      · simp only [hl, hs, List.map_cons, List.map_nil, join_singleton]
    | error err =>
      cases hne : err.isNotExist with
      | false =>
        rw [getLongTitle_of_readError w dpath err hhome hread hne] at hsucc
        simp at hsucc
      | true =>
        have hlong := (getLongTitle_of_noOverride w dpath hhome ⟨err, hread, hne⟩).2
        cases hwalk : walkList w (walkPaths dpath) [] with
        | error e =>
          rw [hlong, hwalk] at hsucc
          simp at hsucc
        | ok res =>
          obtain ⟨qs, hlen, herr, hres⟩ := walkList_ok_titles w _ _ _ hwalk
          refine ⟨qs, ?_, herr, ?_⟩
          · have := walkPaths_length dpath
            omega
          · rw [hlong, hwalk, hres]
            simp

/-- C7 on a path six parts long. -/
theorem C7_at_most_four_titles_witness :
    ∃ paths : List GoString, paths.length ≤ 4 ∧
      (∀ p ∈ paths, (getShortTitle aliceWorld p).2.2 = none) ∧
      (getLongTitle aliceWorld "/home/alice/projects/foo/src".toList).1 =
        Join (paths.map (fun p => (getShortTitle aliceWorld p).1)) (titleSep aliceWorld) :=
  C7_at_most_four_titles aliceWorld "/home/alice/projects/foo/src".toList (by decide)

/-- C8: `readTitleFile` on a readable override file with content `c` returns
`(t, true, nil)` where `t` is `c` without its surrounding white space, or
`Terminal` when that is empty, so `t` is never empty and has no white space at
either end; when the file does not exist it returns `("", false, nil)`; on any
other read failure it returns `("", false, err)`. -/
theorem C8_readTitleFile (w : World) (dpath : GoString) :
    (∀ c, w.ReadFile (titleFile w dpath) = .ok c →
      readTitleFile w dpath =
        (if TrimSpace c = [] then "Terminal".toList else TrimSpace c, true, none) ∧
      (∃ l r : GoString, c = l ++ TrimSpace c ++ r ∧
        (∀ x ∈ l, isSpace x = true) ∧ (∀ x ∈ r, isSpace x = true)) ∧
      (readTitleFile w dpath).1 ≠ [] ∧
      (∀ x, (readTitleFile w dpath).1.head? = some x → isSpace x = false) ∧
      (∀ x, (readTitleFile w dpath).1.getLast? = some x → isSpace x = false)) ∧
    (∀ err, w.ReadFile (titleFile w dpath) = .error err → err.isNotExist = true →
      readTitleFile w dpath = ([], false, none)) ∧
    (∀ err, w.ReadFile (titleFile w dpath) = .error err → err.isNotExist = false →
      readTitleFile w dpath = ([], false, some (Error.os err))) := by
  refine ⟨?_, ?_, ?_⟩
  · intro c hc
    have h := readTitleFile_of_hasOverride (show HasOverride w dpath c from hc)
    have ht := overrideTitle_trimmed c
    rw [h]
    exact ⟨rfl, trimSpace_spec c, ht.1, ht.2.1, ht.2.2⟩
  · intro err hread hne
    exact readTitleFile_of_noOverride ⟨err, hread, hne⟩
  · intro err hread hne
    exact readTitleFile_of_error hread hne

/-- C8 on a file of white space, on a missing file and on an unreadable one. -/
theorem C8_readTitleFile_witness :
    readTitleFile overrideWorld "/srv/app".toList = ("Terminal".toList, true, none) ∧
    readTitleFile overrideWorld "/srv/none".toList = ([], false, none) ∧
    readTitleFile brokenWorld "/home/alice/projects".toList =
      ([], false, some (Error.os errPermission)) :=
  ⟨((C8_readTitleFile overrideWorld "/srv/app".toList).1 " \t\n".toList rfl).1,
   (C8_readTitleFile overrideWorld "/srv/none".toList).2.1 errNotExist rfl rfl,
   (C8_readTitleFile brokenWorld "/home/alice/projects".toList).2.2 errPermission rfl rfl⟩

/-- C9: for a path `pre/seg` that is not home, has no override file and whose
final segment `seg` is non-empty and does not start with `.`: if stat fails
with not-exist or permission-denied, `getShortTitle` returns the full path
with stop and no error; if stat fails with any other error, `getShortTitle`
returns that error. -/
theorem C9_stat_failure (w : World) (pre seg : GoString) (hseg : '/' ∉ seg)
    (hne : seg ≠ []) (hdot : seg.head? ≠ some '.')
    (hhome : pre ++ '/' :: seg ≠ w.userObj.HomeDir)
    (hno : NoOverride w (pre ++ '/' :: seg))
    (err : OSError) (hstat : w.Stat (pre ++ '/' :: seg) = .error err) :
    ((err.isNotExist = true ∨ err.isPermission = true) →
        getShortTitle w (pre ++ '/' :: seg) = (pre ++ '/' :: seg, true, none)) ∧
    (err.isNotExist = false → err.isPermission = false →
        getShortTitle w (pre ++ '/' :: seg) = ([], false, some (Error.os err))) := by
  rw [getShortTitle_of_noOverride w pre seg hseg hhome hno, if_neg hne, if_neg hdot, hstat]
  constructor
  · intro h
    rcases h with h | h <;> simp [h]
  · intro h1 h2
    simp [h1, h2]

/-- C9 on a missing directory and on one whose stat fails with an input/output
error. -/
theorem C9_stat_failure_witness :
    getShortTitle aliceWorld "/home/alice/missing".toList =
      ("/home/alice/missing".toList, true, none) ∧
    getShortTitle brokenWorld "/mnt/disk".toList =
      ([], false, some (Error.os errInputOutput)) :=
  ⟨(C9_stat_failure aliceWorld "/home/alice".toList "missing".toList (by decide) (by decide)
      (by decide) (by decide) ⟨errNotExist, rfl, rfl⟩ errNotExist rfl).1 (Or.inl rfl),
   (C9_stat_failure brokenWorld "/mnt".toList "disk".toList (by decide) (by decide)
      (by decide) (by decide) ⟨errNotExist, rfl, rfl⟩ errInputOutput rfl).2 rfl rfl⟩

/-- C10: when the override read that `getShortTitle` and `getLongTitle`
perform for a path (any path but the home directory) fails with an error other
than not-exist, both return exactly that error with an empty title; and when a
`getShortTitle` call made during the walk (every earlier call succeeded
without saying stop) returns an error, `getLongTitle` returns that same error
with an empty title. -/
theorem C10_errors_propagate (w : World) (dpath : GoString)
    (hhome : dpath ≠ w.userObj.HomeDir) :
    (∀ err, w.ReadFile (titleFile w dpath) = .error err → err.isNotExist = false →
      getShortTitle w dpath = ([], false, some (Error.os err)) ∧
      getLongTitle w dpath = ([], some (Error.os err))) ∧
    (NoOverride w dpath → ∀ (pre : List GoString) (p : GoString) (post : List GoString)
      (err : Error), walkPaths dpath = pre ++ p :: post →
      (∀ q ∈ pre, (getShortTitle w q).2.1 = false ∧ (getShortTitle w q).2.2 = none) →
      (getShortTitle w p).2.2 = some err →
      getLongTitle w dpath = ([], some err)) := by
  constructor
  · intro err hread hne
    exact ⟨getShortTitle_of_readError w dpath err hhome hread hne,
      getLongTitle_of_readError w dpath err hhome hread hne⟩
  · intro hno pre p post err hpaths hpre hp
    rw [(getLongTitle_of_noOverride w dpath hhome hno).2, hpaths,
      walkList_error w pre p post [] err hpre hp]

/-- C10 where the override file of `/home/alice/projects` may not be read: on
that path, and on `/home/alice/projects/foo`, whose walk reaches it. -/
theorem C10_errors_propagate_witness :
    (getShortTitle brokenWorld "/home/alice/projects".toList =
        ([], false, some (Error.os errPermission)) ∧
      getLongTitle brokenWorld "/home/alice/projects".toList =
        ([], some (Error.os errPermission))) ∧
    getLongTitle brokenWorld "/home/alice/projects/foo".toList =
      ([], some (Error.os errPermission)) :=
  ⟨(C10_errors_propagate brokenWorld "/home/alice/projects".toList (by decide)).1
      errPermission rfl rfl,
   (C10_errors_propagate brokenWorld "/home/alice/projects/foo".toList (by decide)).2
      ⟨errNotExist, rfl, rfl⟩ ["/home/alice/projects/foo".toList]
      "/home/alice/projects".toList ["/home/alice".toList] (Error.os errPermission)
      (by decide) (by decide) (by decide)⟩


/-! ## The command overlay -/

theorem contains_iff (s substr : GoString) : Contains s substr = true ↔ substr <:+: s := by
  unfold Contains
  rw [List.any_eq_true, List.infix_iff_prefix_suffix]
  constructor
  · rintro ⟨t, ht, hp⟩
    exact ⟨t, List.isPrefixOf_iff_prefix.mp hp, (List.mem_tails t s).mp ht⟩
  · rintro ⟨t, hp, ht⟩
    exact ⟨t, (List.mem_tails t s).mpr ht, List.isPrefixOf_iff_prefix.mpr hp⟩

theorem hasPrefix_iff (s pre : GoString) : HasPrefix s pre = true ↔ pre <+: s := by
  unfold HasPrefix
  exact List.isPrefixOf_iff_prefix

theorem split_headD (s : GoString) (sep : Char) :
    (Split s sep).headD [] = s.takeWhile (fun c => c ≠ sep) := by
  unfold Split List.splitOn
  induction s with
  | nil => simp
  | cons x xs ih =>
    rw [List.splitOnP_cons]
    by_cases hx : x = sep
    · simp [hx]
    · have hx2 : (x == sep) = false := by simpa using hx
      rw [hx2]
      simp only [Bool.false_eq_true, if_false]
      cases hsp : List.splitOnP (fun c => c == sep) xs with
      | nil => exact absurd hsp (List.splitOnP_ne_nil _ _)
      | cons h t =>
        rw [hsp] at ih
        simp only [List.headD_cons] at ih
        simp [List.takeWhile_cons, hx, ih]

theorem getRunningCommand_of_empty (w : World)
    (hc : w.Getenv "BASH_COMMAND".toList = []) : getRunningCommand w = [] := by
  unfold getRunningCommand
  simp only [hc, ne_eq, not_true_eq_false, if_false]

theorem getRunningCommand_of_noise (w : World)
    (hn : firstSpaceToken (w.Getenv "BASH_COMMAND".toList) ∈ noiseBuiltins) :
    getRunningCommand w = [] := by
  unfold getRunningCommand
  simp only [split_headD]
  unfold firstSpaceToken noiseBuiltins at hn
  rw [if_pos hn]
  split <;> rfl

theorem getRunningCommand_of_guarded (w : World)
    (hg : Guarded (w.Getenv "BASH_COMMAND".toList)) : getRunningCommand w = [] := by
  unfold getRunningCommand
  simp only
  generalize w.Getenv "BASH_COMMAND".toList = cmd at hg ⊢
  unfold Guarded at hg
  rw [← contains_iff, ← contains_iff, ← contains_iff, ← contains_iff, ← hasPrefix_iff] at hg
  split
  · split
    · rfl
    · rcases hg with h | h | h | h | h
      · rw [if_pos h]
      · rw [if_pos h]
        split <;> rfl
      · rw [if_pos h]
        split
        · rfl
        · split <;> rfl
      · rw [if_pos h]
        split
        · rfl
        · split
          · rfl
          · split <;> rfl
      · rw [if_pos h]
        split
        · rfl
        · split
          · rfl
          · split
            · rfl
            · split <;> rfl
  · rfl

theorem getRunningCommand_of_plain (w : World)
    (hc : w.Getenv "BASH_COMMAND".toList ≠ [])
    (hn : firstSpaceToken (w.Getenv "BASH_COMMAND".toList) ∉ noiseBuiltins)
    (hg : ¬ Guarded (w.Getenv "BASH_COMMAND".toList)) :
    getRunningCommand w =
      if w.Getenv "HIST_LAST_COMMAND".toList ≠ [] then w.Getenv "HIST_LAST_COMMAND".toList
      else w.Getenv "BASH_COMMAND".toList := by
  unfold getRunningCommand
  simp only [split_headD]
  unfold firstSpaceToken noiseBuiltins at hn
  rw [if_pos hc, if_neg hn]
  generalize w.Getenv "BASH_COMMAND".toList = cmd at hg ⊢
  unfold Guarded at hg
  rw [← contains_iff, ← contains_iff, ← contains_iff, ← contains_iff, ← hasPrefix_iff] at hg
  simp only [not_or] at hg
  obtain ⟨h1, h2, h3, h4, h5⟩ := hg
  rw [if_neg h1, if_neg h2, if_neg h3, if_neg h4, if_neg h5]


/-! ## Paths without a slash, and the environment -/

theorem split_of_no_sep (s : GoString) (sep : Char) (h : sep ∉ s) : Split s sep = [s] := by
  unfold Split List.splitOn
  apply List.splitOnP_eq_single
  intro x hx hxs
  have : x = sep := by simpa using hxs
  exact h (this ▸ hx)

theorem walkPaths_of_no_slash (dpath : GoString) (h : '/' ∉ dpath) : walkPaths dpath = [] := by
  unfold walkPaths
  rw [split_of_no_sep dpath '/' h]
  rfl

/-- On a path without `/` that is not the home directory and has no override
file, `getLongTitle` returns the empty title and no error. -/
theorem getLongTitle_of_no_slash (w : World) (dpath : GoString) (h : '/' ∉ dpath)
    (hhome : dpath ≠ w.userObj.HomeDir) (hno : NoOverride w dpath) :
    getLongTitle w dpath = ([], none) := by
  rw [(getLongTitle_of_noOverride w dpath hhome hno).2, walkPaths_of_no_slash dpath h]
  rfl

theorem getShortTitle_setenv (w : World) (name value dpath : GoString) :
    getShortTitle (setenv w name value) dpath = getShortTitle w dpath := rfl

theorem titleSep_setenv (w : World) (name value : GoString)
    (hname : "DIRTITLE_SEP".toList ≠ name) :
    titleSep (setenv w name value) = titleSep w := by
  unfold titleSep setenv
  simp only [if_neg hname]

theorem getLongTitleLoop_setenv (w : World) (name value : GoString)
    (parts : List GoString) (stop i : Nat) (titleParts : List GoString) :
    getLongTitleLoop (setenv w name value) parts stop i titleParts =
      getLongTitleLoop w parts stop i titleParts := by
  induction i generalizing titleParts with
  | zero => rfl
  | succ i ih =>
    unfold getLongTitleLoop
    simp only [getShortTitle_setenv, ih]

theorem getLongTitle_setenv (w : World) (name value dpath : GoString)
    (hname : "DIRTITLE_SEP".toList ≠ name) :
    getLongTitle (setenv w name value) dpath = getLongTitle w dpath := by
  unfold getLongTitle
  simp only [getLongTitleLoop_setenv, titleSep_setenv w name value hname]
  rfl


/-! ## Inversion of `getShortTitle` -/

theorem exists_last_slash (s : GoString) (h : '/' ∈ s) :
    ∃ pre seg : GoString, s = pre ++ '/' :: seg ∧ '/' ∉ seg := by
  have hr : '/' ∈ s.reverse := List.mem_reverse.mpr h
  obtain ⟨as, bs, hs, hnot⟩ := List.eq_append_cons_of_mem hr
  refine ⟨bs.reverse, as.reverse, ?_, ?_⟩
  · have := congrArg List.reverse hs
    simpa using this
  · simpa using hnot

theorem readTitleFile_cases (w : World) (dpath : GoString) :
    (∃ content, HasOverride w dpath content) ∨ NoOverride w dpath ∨
      ∃ err, w.ReadFile (titleFile w dpath) = .error err ∧ err.isNotExist = false := by
  cases hread : w.ReadFile (titleFile w dpath) with
  | ok content => exact Or.inl ⟨content, hread⟩
  | error err =>
    cases hne : err.isNotExist with
    | true => exact Or.inr (Or.inl ⟨err, hread, hne⟩)
    | false => exact Or.inr (Or.inr ⟨err, rfl, hne⟩)

theorem getShortTitle_of_home (w : World) (dpath : GoString)
    (hhome : dpath = w.userObj.HomeDir) : getShortTitle w dpath = ("~".toList, true, none) := by
  unfold getShortTitle
  rw [if_pos hhome]

theorem getShortTitle_of_hasOverride (w : World) (dpath content : GoString)
    (hhome : dpath ≠ w.userObj.HomeDir) (hov : HasOverride w dpath content) :
    getShortTitle w dpath = (overrideTitle content, true, none) := by
  unfold getShortTitle
  simp only [if_neg hhome, readTitleFile_of_hasOverride hov, if_true]

theorem getLongTitle_of_hasOverride (w : World) (dpath content : GoString)
    (hhome : dpath ≠ w.userObj.HomeDir) (hov : HasOverride w dpath content) :
    getLongTitle w dpath = (overrideTitle content, none) := by
  unfold getLongTitle
  simp only [if_neg hhome, readTitleFile_of_hasOverride hov, if_true]

theorem getShortTitle_of_no_slash (w : World) (dpath : GoString) (h : '/' ∉ dpath)
    (hhome : dpath ≠ w.userObj.HomeDir) (hno : NoOverride w dpath) :
    getShortTitle w dpath = ([], false, some (Error.badDirectoryPath dpath)) := by
  unfold getShortTitle
  rw [if_neg hhome, readTitleFile_of_noOverride hno]
  simp only [lastIndex_of_not_mem dpath h]
  rfl

/-- A title that `getShortTitle` returns without error is not empty, and one
returned without stop is the final segment of the path: a plain name. -/
theorem getShortTitle_ok_inv (w : World) (dpath t : GoString) (stop : Bool)
    (hs : getShortTitle w dpath = (t, stop, none)) :
    t ≠ [] ∧ (stop = false →
      dpath ≠ w.userObj.HomeDir ∧ NoOverride w dpath ∧
      ∃ pre, dpath = pre ++ '/' :: t ∧ '/' ∉ t ∧ t.head? ≠ some '.') := by
  by_cases hhome : dpath = w.userObj.HomeDir
  · rw [getShortTitle_of_home w dpath hhome] at hs
    simp only [Prod.mk.injEq] at hs
    obtain ⟨ht, hstop, -⟩ := hs
    subst ht
    subst hstop
    exact ⟨by decide, fun h => absurd h (by decide)⟩
  · rcases readTitleFile_cases w dpath with ⟨c, hov⟩ | hno | ⟨err, hread, hne⟩
    · rw [getShortTitle_of_hasOverride w dpath c hhome hov] at hs
      simp only [Prod.mk.injEq] at hs
      obtain ⟨ht, hstop, -⟩ := hs
      subst ht
      subst hstop
      exact ⟨(overrideTitle_trimmed c).1, fun h => absurd h (by decide)⟩
    · by_cases hsl : '/' ∈ dpath
      · obtain ⟨pre, seg, hd, hseg⟩ := exists_last_slash dpath hsl
        subst hd
        rw [getShortTitle_of_noOverride w pre seg hseg hhome hno] at hs
        have hpath : pre ++ '/' :: seg ≠ [] := by simp
        by_cases h1 : seg = []
        · rw [if_pos h1] at hs
          simp only [Prod.mk.injEq] at hs
          obtain ⟨ht, hstop, -⟩ := hs
          subst ht
          subst hstop
          exact ⟨by decide, fun h => absurd h (by decide)⟩
        rw [if_neg h1] at hs
        by_cases h2 : seg.head? = some '.'
        · rw [if_pos h2] at hs
          simp only [Prod.mk.injEq] at hs
          obtain ⟨ht, hstop, -⟩ := hs
          subst ht
          subst hstop
          exact ⟨by decide, fun h => absurd h (by decide)⟩
        rw [if_neg h2] at hs
        have hplain : ∀ t stop, (seg, false, (none : Option Error)) = (t, stop, none) →
            t ≠ [] ∧ (stop = false →
              pre ++ '/' :: seg ≠ w.userObj.HomeDir ∧ NoOverride w (pre ++ '/' :: seg) ∧
              ∃ pre0, pre ++ '/' :: seg = pre0 ++ '/' :: t ∧ '/' ∉ t ∧
                t.head? ≠ some '.') := by
          intro t stop h
          simp only [Prod.mk.injEq] at h
          obtain ⟨ht, -, -⟩ := h
          subst ht
          exact ⟨h1, fun _ => ⟨hhome, hno, pre, rfl, hseg, h2⟩⟩
        have hfull : ∀ t stop,
            (pre ++ '/' :: seg, true, (none : Option Error)) = (t, stop, none) →
            t ≠ [] ∧ (stop = false →
              pre ++ '/' :: seg ≠ w.userObj.HomeDir ∧ NoOverride w (pre ++ '/' :: seg) ∧
              ∃ pre0, pre ++ '/' :: seg = pre0 ++ '/' :: t ∧ '/' ∉ t ∧
                t.head? ≠ some '.') := by
          intro t stop h
          simp only [Prod.mk.injEq] at h
          obtain ⟨ht, hstop, -⟩ := h
          subst ht
          subst hstop
          exact ⟨hpath, fun h => absurd h (by decide)⟩
        cases hstat : w.Stat (pre ++ '/' :: seg) with
        | error err =>
          rw [hstat] at hs
          simp only at hs
          by_cases he : (err.isNotExist || err.isPermission) = true
          · rw [if_pos he] at hs
            exact hfull t stop hs
          · rw [if_neg he] at hs
            simp at hs
        | ok stat =>
          rw [hstat] at hs
          simp only at hs
          cases hsys : stat.Sys with
          | none =>
            rw [hsys] at hs
            exact hplain t stop hs
          | some dirUid =>
            rw [hsys] at hs
            simp only at hs
            by_cases hu : w.userObj.Uid ≠ "0".toList ∧ Sprintf_d dirUid ≠ w.userObj.Uid
            · rw [if_pos hu] at hs
              exact hfull t stop hs
            · rw [if_neg hu] at hs
              exact hplain t stop hs
      · rw [getShortTitle_of_no_slash w dpath hsl hhome hno] at hs
        simp at hs
    · rw [getShortTitle_of_readError w dpath err hhome hread hne] at hs
      simp at hs

/-- On a path that contains `/`, an error of `getShortTitle` is an error of
the `os` package. -/
theorem getShortTitle_error_os (w : World) (dpath : GoString) (hsl : '/' ∈ dpath)
    (e : Error) (he : (getShortTitle w dpath).2.2 = some e) : ∃ oe, e = Error.os oe := by
  by_cases hhome : dpath = w.userObj.HomeDir
  · rw [getShortTitle_of_home w dpath hhome] at he
    simp at he
  · rcases readTitleFile_cases w dpath with ⟨c, hov⟩ | hno | ⟨err, hread, hne⟩
    · rw [getShortTitle_of_hasOverride w dpath c hhome hov] at he
      simp at he
    · obtain ⟨pre, seg, hd, hseg⟩ := exists_last_slash dpath hsl
      subst hd
      rw [getShortTitle_of_noOverride w pre seg hseg hhome hno] at he
      split at he
      · simp at he
      · split at he
        · simp at he
        · split at he
          · split at he
            · simp at he
            · simp only [Option.some.injEq] at he
              exact ⟨_, he.symm⟩
          · split at he
            · split at he <;> simp at he
            · simp at he
    · rw [getShortTitle_of_readError w dpath err hhome hread hne] at he
      simp only [Option.some.injEq] at he
      exact ⟨err, he.symm⟩


/-! ## The parts of a path with a slash -/

theorem split_length_ge_two (s : GoString) (h : '/' ∈ s) : 2 ≤ (Split s '/').length := by
  unfold Split List.splitOn
  induction s with
  | nil => simp at h
  | cons x xs ih =>
    rw [List.splitOnP_cons]
    by_cases hx : x = '/'
    · have hne := List.splitOnP_ne_nil (fun c => c == '/') xs
      have hpos := List.length_pos.mpr hne
      simp only [hx, beq_self_eq_true, if_true, List.length_cons]
      omega
    · have hx2 : (x == '/') = false := by simpa using hx
      have hmem : '/' ∈ xs := by
        rcases List.mem_cons.mp h with h0 | h0
        · exact absurd h0.symm hx
        · exact h0
      simp only [hx2, Bool.false_eq_true, if_false, List.length_modifyHead]
      exact ih hmem

theorem join_mem_slash (elems : List GoString) (h : 2 ≤ elems.length) :
    '/' ∈ Join elems "/".toList := by
  match elems, h with
  | a :: b :: rest, _ =>
    unfold Join
    have : "/".toList = ['/'] := rfl
    rw [this]
    simp [List.intercalate, List.intersperse]

/-- Every path of the walk joins at least two of the parts, so it contains a
slash. -/
theorem walkPaths_mem (dpath q : GoString) (hq : q ∈ walkPaths dpath) :
    (∃ m, 2 ≤ m ∧ m ≤ (Split dpath '/').length ∧
      q = Join ((Split dpath '/').take m) "/".toList) ∧ '/' ∈ q := by
  unfold walkPaths at hq
  simp only [List.mem_map, List.mem_range] at hq
  obtain ⟨k, hk, rfl⟩ := hq
  have h1 : 2 ≤ (Split dpath '/').length - k := by omega
  have h2 : (Split dpath '/').length - k ≤ (Split dpath '/').length := by omega
  refine ⟨⟨_, h1, h2, rfl⟩, ?_⟩
  apply join_mem_slash
  rw [List.length_take]
  omega

theorem walkPaths_cons (dpath : GoString) (h : '/' ∈ dpath) :
    ∃ tl, walkPaths dpath = dpath :: tl ∧ tl.length ≤ 2 := by
  have hhead := walkPaths_head dpath (split_length_ge_two dpath h)
  have hlen := walkPaths_length dpath
  cases hw : walkPaths dpath with
  | nil => rw [hw] at hhead; simp at hhead
  | cons a tl =>
    rw [hw] at hhead hlen
    simp only [List.head?_cons, Option.some.injEq] at hhead
    subst hhead
    refine ⟨tl, rfl, ?_⟩
    simp only [List.length_cons] at hlen
    omega

theorem walkList_error_mem (w : World) (ps : List GoString) (titleParts : List GoString)
    (e : Error) (h : walkList w ps titleParts = .error e) :
    ∃ q ∈ ps, (getShortTitle w q).2.2 = some e := by
  induction ps generalizing titleParts with
  | nil => simp [walkList] at h
  | cons p ps ih =>
    unfold walkList at h
    rcases hres : getShortTitle w p with ⟨t, isSet, err⟩
    rw [hres] at h
    cases err with
    | some err =>
      simp only [Except.error.injEq] at h
      subst h
      exact ⟨p, List.mem_cons_self p ps, by rw [hres]⟩
    | none =>
      cases isSet with
      | true => simp at h
      | false =>
        simp only [Bool.false_eq_true, if_false] at h
        obtain ⟨q, hq, he⟩ := ih _ h
        exact ⟨q, List.mem_cons_of_mem p hq, he⟩

/-- The titles the walk collects, all but the last, come from calls that did
not say stop. -/
theorem walkList_ok_dropLast (w : World) (ps : List GoString) (titleParts res : List GoString)
    (h : walkList w ps titleParts = .ok res) :
    ∃ ts : List GoString, res = titleParts ++ ts ∧
      ∀ x ∈ ts.dropLast, ∃ q ∈ ps, getShortTitle w q = (x, false, none) := by
  induction ps generalizing titleParts with
  | nil =>
    simp only [walkList, Except.ok.injEq] at h
    exact ⟨[], by simp [h], by simp⟩
  | cons p ps ih =>
    unfold walkList at h
    rcases hres : getShortTitle w p with ⟨t, isSet, e⟩
    rw [hres] at h
    cases e with
    | some e => simp at h
    | none =>
      cases isSet with
      | true =>
        simp only [if_true, Except.ok.injEq] at h
        exact ⟨[t], h.symm, by simp⟩
      | false =>
        simp only [Bool.false_eq_true, if_false] at h
        obtain ⟨ts, hts, hall⟩ := ih _ h
        refine ⟨t :: ts, by simp [hts], ?_⟩
        intro x hx
        cases ts with
        | nil => simp at hx
        | cons a ts2 =>
          rw [List.dropLast_cons₂] at hx
          rcases List.mem_cons.mp hx with rfl | hx
          · exact ⟨p, List.mem_cons_self p ps, hres⟩
          · obtain ⟨q, hq, hqs⟩ := hall x hx
            exact ⟨q, List.mem_cons_of_mem p hq, hqs⟩

/-- The titles a successful walk adds are the titles of `getShortTitle` on an
initial stretch of its paths: each of these calls succeeds, none but the last
says stop, and the stretch ends at the first call that says stop or, without
one, covers all the paths. -/
theorem walkList_ok_initial (w : World) (ps : List GoString) (titleParts res : List GoString)
    (h : walkList w ps titleParts = .ok res) :
    ∃ qs : List GoString, qs <+: ps ∧ (∀ q ∈ qs, (getShortTitle w q).2.2 = none) ∧
      (∀ q ∈ qs.dropLast, (getShortTitle w q).2.1 = false) ∧
      (qs = ps ∨ ∃ q, qs.getLast? = some q ∧ (getShortTitle w q).2.1 = true) ∧
      res = titleParts ++ qs.map (fun q => (getShortTitle w q).1) := by
  induction ps generalizing titleParts with
  | nil =>
    simp only [walkList, Except.ok.injEq] at h
    exact ⟨[], List.prefix_refl _, by simp, by simp, Or.inl rfl, by simp [h]⟩
  | cons p ps ih =>
    unfold walkList at h
    rcases hres : getShortTitle w p with ⟨t, isSet, e⟩
    rw [hres] at h
    cases e with
    | some e => simp at h
    | none =>
      cases isSet with
      | true =>
        simp only [if_true, Except.ok.injEq] at h
        refine ⟨[p], ⟨ps, rfl⟩, by simp [hres], by simp,
          Or.inr ⟨p, rfl, by rw [hres]⟩, by simp [hres, h]⟩
      | false =>
        simp only [Bool.false_eq_true, if_false] at h
        obtain ⟨qs, hpre, herr, hdrop, hend, hq⟩ := ih _ h
        obtain ⟨tl, htl⟩ := hpre
        refine ⟨p :: qs, ⟨tl, by simp [htl]⟩, ?_, ?_, ?_, ?_⟩
        · intro q hq
          rcases List.mem_cons.mp hq with rfl | hq
          · simp [hres]
          · exact herr q hq
        · intro q hq
          cases qs with
          | nil => simp at hq
          | cons a qs2 =>
            rw [List.dropLast_cons₂] at hq
            rcases List.mem_cons.mp hq with rfl | hq
            · rw [hres]
            · exact hdrop q hq
        · rcases hend with hall | ⟨q, hlast, hstop⟩
          · exact Or.inl (by rw [hall])
          · refine Or.inr ⟨q, ?_, hstop⟩
            cases qs with
            | nil => simp at hlast
            | cons a qs2 =>
              rw [List.getLast?_cons_cons]
              exact hlast
        · simp [hq, hres]

/-- An error of `getLongTitle` on a path that is not home and has no override
file is the error of a `getShortTitle` call on a path of the walk. -/
theorem getLongTitle_error_mem (w : World) (dpath : GoString)
    (hhome : dpath ≠ w.userObj.HomeDir) (hno : NoOverride w dpath) (e : Error)
    (he : (getLongTitle w dpath).2 = some e) :
    ∃ q ∈ walkPaths dpath, (getShortTitle w q).2.2 = some e := by
  rw [(getLongTitle_of_noOverride w dpath hhome hno).2] at he
  cases hwalk : walkList w (walkPaths dpath) [] with
  | ok res => rw [hwalk] at he; simp at he
  | error e2 =>
    rw [hwalk] at he
    simp only [Option.some.injEq] at he
    subst he
    exact walkList_error_mem w _ _ _ hwalk


/-- C11, as stated, fails: `foo` contains no `/`, is not the home directory
and has no override file, yet `getLongTitle` returns the empty title and no
error; the malformed-path error naming the path comes from `getShortTitle`
only. -/
theorem C11_counterexample :
    '/' ∉ "foo".toList ∧ "foo".toList ≠ aliceWorld.userObj.HomeDir ∧
    NoOverride aliceWorld "foo".toList ∧
    getLongTitle aliceWorld "foo".toList = ([], none) ∧
    (getLongTitle aliceWorld "foo".toList).2 ≠
      some (Error.badDirectoryPath "foo".toList) ∧
    getShortTitle aliceWorld "foo".toList =
      ([], false, some (Error.badDirectoryPath "foo".toList)) := by
  refine ⟨by decide, by decide, ⟨errNotExist, rfl, rfl⟩, by decide, by decide, by decide⟩

/-- C11, amended: for every path that contains no `/`, is not the home
directory and has no override file, the split yields the path as its one part,
the walk of `getLongTitle` makes no call, and `getLongTitle` returns the empty
title with no error; `getShortTitle` on such a path returns the malformed-path
error that names it. -/
theorem C11_no_slash (w : World) (dpath : GoString) (hsl : '/' ∉ dpath)
    (hhome : dpath ≠ w.userObj.HomeDir) (hno : NoOverride w dpath) :
    Split dpath '/' = [dpath] ∧ walkPaths dpath = [] ∧
    getLongTitleLoop w (Split dpath '/') (stopIndex (Split dpath '/'))
        (Split dpath '/').length [] = .ok [] ∧
    getLongTitle w dpath = ([], none) ∧
    getShortTitle w dpath = ([], false, some (Error.badDirectoryPath dpath)) := by
  refine ⟨split_of_no_sep dpath '/' hsl, walkPaths_of_no_slash dpath hsl, ?_,
    getLongTitle_of_no_slash w dpath hsl hhome hno,
    getShortTitle_of_no_slash w dpath hsl hhome hno⟩
  rw [(getLongTitle_of_noOverride w dpath hhome hno).1, walkPaths_of_no_slash dpath hsl]
  rfl

/-- C11, amended, on the bare name `foo` and on the empty path. -/
theorem C11_no_slash_witness :
    getLongTitle aliceWorld "foo".toList = ([], none) ∧
    getLongTitle aliceWorld [] = ([], none) :=
  ⟨(C11_no_slash aliceWorld "foo".toList (by decide) (by decide)
      ⟨errNotExist, rfl, rfl⟩).2.2.2.1,
   (C11_no_slash aliceWorld [] (by decide) (by decide) ⟨errNotExist, rfl, rfl⟩).2.2.2.1⟩

/-- C12, as stated, fails when the white space after the first token is not a
space: the first white-space-delimited token of `cd<TAB>/tmp` is `cd`, yet
`getRunningCommand` returns the whole command line. -/
theorem C12_counterexample :
    firstField "cd\t/tmp".toList = "cd".toList ∧ "cd".toList ∈ noiseBuiltins ∧
    (commandWorld "cd\t/tmp".toList []).Getenv "BASH_COMMAND".toList = "cd\t/tmp".toList ∧
    getRunningCommand (commandWorld "cd\t/tmp".toList []) = "cd\t/tmp".toList ∧
    getRunningCommand (commandWorld "cd\t/tmp".toList []) ≠ [] := by
  refine ⟨by decide, by decide, by decide, by decide, by decide⟩

/-- C12, amended: for every command line whose first space-delimited token
(the text before its first space) is one of `.`, `source`, `test`, `[`, `cd`,
`export`, `eval`, `printf`, `getRunningCommand` returns the empty string,
whatever `HIST_LAST_COMMAND` holds. -/
theorem C12_noise_builtins (w : World)
    (hn : firstSpaceToken (w.Getenv "BASH_COMMAND".toList) ∈ noiseBuiltins) :
    getRunningCommand w = [] :=
  getRunningCommand_of_noise w hn

/-- C12, amended, on `cd /tmp` with a history value set. -/
theorem C12_noise_builtins_witness :
    getRunningCommand (commandWorld "cd /tmp".toList "cd /tmp # typed".toList) = [] :=
  C12_noise_builtins (commandWorld "cd /tmp".toList "cd /tmp # typed".toList) (by decide)

/-- C13: for every command line that contains the escape marker (`ESC`
followed by `]0`), contains `direnv`, `dirtitle` or `dir-title` anywhere, or
starts with `[`, `getRunningCommand` returns the empty string, whatever
`HIST_LAST_COMMAND` holds. -/
theorem C13_guards (w : World) (hg : Guarded (w.Getenv "BASH_COMMAND".toList)) :
    getRunningCommand w = [] :=
  getRunningCommand_of_guarded w hg

/-- C13 on a command line that names `dirtitle`, with a history value set. -/
theorem C13_guards_witness :
    getRunningCommand (commandWorld "echo $(dirtitle -long .)".toList "ls".toList) = [] :=
  C13_guards (commandWorld "echo $(dirtitle -long .)".toList "ls".toList)
    (Or.inr (Or.inr (Or.inr (Or.inl (by decide)))))

/-- C14: for a non-empty command line whose first space-delimited token is no
noise built-in and that triggers no guard, `getRunningCommand` returns
`HIST_LAST_COMMAND` if that is non-empty and the command line otherwise; for
an empty command line it returns the empty string; and its result is empty
exactly when the command line is empty or filtered. -/
theorem C14_overlay (w : World) :
    (w.Getenv "BASH_COMMAND".toList ≠ [] →
      firstSpaceToken (w.Getenv "BASH_COMMAND".toList) ∉ noiseBuiltins →
      ¬ Guarded (w.Getenv "BASH_COMMAND".toList) →
      getRunningCommand w =
        if w.Getenv "HIST_LAST_COMMAND".toList ≠ [] then w.Getenv "HIST_LAST_COMMAND".toList
        else w.Getenv "BASH_COMMAND".toList) ∧
    (w.Getenv "BASH_COMMAND".toList = [] → getRunningCommand w = []) ∧
    (getRunningCommand w = [] ↔
      (w.Getenv "BASH_COMMAND".toList = [] ∨
        firstSpaceToken (w.Getenv "BASH_COMMAND".toList) ∈ noiseBuiltins ∨
        Guarded (w.Getenv "BASH_COMMAND".toList))) := by
  refine ⟨getRunningCommand_of_plain w, getRunningCommand_of_empty w, ?_, ?_⟩
  · intro hr
    by_contra hnot
    simp only [not_or] at hnot
    obtain ⟨hc, hn, hg⟩ := hnot
    rw [getRunningCommand_of_plain w hc hn hg] at hr
    by_cases hh : w.Getenv "HIST_LAST_COMMAND".toList ≠ []
    · rw [if_pos hh] at hr
      exact hh hr
    · rw [if_neg hh] at hr
      exact hc hr
  · rintro (h | h | h)
    · exact getRunningCommand_of_empty w h
    · exact getRunningCommand_of_noise w h
    · exact getRunningCommand_of_guarded w h

/-- C14 on `git status`, without and with a history value, and on the empty
command line with a history value. -/
theorem C14_overlay_witness :
    getRunningCommand (commandWorld "git status".toList []) = "git status".toList ∧
    getRunningCommand (commandWorld "git status".toList "g st".toList) = "g st".toList ∧
    getRunningCommand (commandWorld [] "g st".toList) = [] :=
  ⟨(C14_overlay (commandWorld "git status".toList [])).1 (by decide) (by decide) (by decide),
   (C14_overlay (commandWorld "git status".toList "g st".toList)).1 (by decide) (by decide)
     (by decide),
   (C14_overlay (commandWorld [] "g st".toList)).2.1 rfl⟩

/-- C15: with show-command enabled and a non-empty overlay `c`,
`getTitleWithOpts` returns the short title, `: ` and `c`, whatever the long
flag; with show-command disabled or an empty overlay it returns the long
title if the long flag is set and the short title otherwise; an error of the
title function it uses ends the process with that error; and with show-command
disabled the result does not depend on `BASH_COMMAND` or
`HIST_LAST_COMMAND`. -/
theorem C15_title_dispatch (w : World) (dpath : GoString) :
    (getRunningCommand w ≠ [] → ∀ long t stop,
      (getShortTitle w dpath = (t, stop, none) →
        getTitleWithOpts w dpath long true =
          .ok (t ++ ": ".toList ++ getRunningCommand w)) ∧
      (∀ err, getShortTitle w dpath = (t, stop, some err) →
        getTitleWithOpts w dpath long true = .error err)) ∧
    (∀ showCommand, (showCommand = false ∨ getRunningCommand w = []) →
      (∀ t, getLongTitle w dpath = (t, none) →
        getTitleWithOpts w dpath true showCommand = .ok t) ∧
      (∀ t err, getLongTitle w dpath = (t, some err) →
        getTitleWithOpts w dpath true showCommand = .error err) ∧
      (∀ t stop, getShortTitle w dpath = (t, stop, none) →
        getTitleWithOpts w dpath false showCommand = .ok t) ∧
      (∀ t stop err, getShortTitle w dpath = (t, stop, some err) →
        getTitleWithOpts w dpath false showCommand = .error err)) ∧
    (∀ long cmd hist,
      getTitleWithOpts
          (setenv (setenv w "BASH_COMMAND".toList cmd) "HIST_LAST_COMMAND".toList hist)
          dpath long false =
        getTitleWithOpts w dpath long false) := by
  refine ⟨?_, ?_, ?_⟩
  · intro hc long t stop
    constructor
    · intro hs
      unfold getTitleWithOpts
      rw [if_pos ⟨rfl, hc⟩, hs]
    · intro err hs
      unfold getTitleWithOpts
      rw [if_pos ⟨rfl, hc⟩, hs]
  · intro showCommand hoff
    have hcond : ¬ (showCommand = true ∧ getRunningCommand w ≠ []) := by
      rintro ⟨h1, h2⟩
      rcases hoff with h | h
      · rw [h] at h1
        exact Bool.false_ne_true h1
      · exact h2 h
    refine ⟨?_, ?_, ?_, ?_⟩
    · intro t hl
      unfold getTitleWithOpts
      rw [if_neg hcond, hl]
      rfl
    · intro t err hl
      unfold getTitleWithOpts
      rw [if_neg hcond, hl]
      rfl
    · intro t stop hs
      unfold getTitleWithOpts
      rw [if_neg hcond, hs]
      rfl
    · intro t stop err hs
      unfold getTitleWithOpts
      rw [if_neg hcond, hs]
      rfl
  · intro long cmd hist
    unfold getTitleWithOpts
    have hcond : ∀ v : World, ¬ (false = true ∧ getRunningCommand v ≠ []) := by
      intro v h
      exact Bool.false_ne_true h.1
    rw [if_neg (hcond _), if_neg (hcond _)]
    simp only [getShortTitle_setenv,
      getLongTitle_setenv _ _ _ _ (show "DIRTITLE_SEP".toList ≠ "HIST_LAST_COMMAND".toList by decide),
      getLongTitle_setenv _ _ _ _ (show "DIRTITLE_SEP".toList ≠ "BASH_COMMAND".toList by decide)]

/-- C15 in the world of `alice` running `git status`: with show-command the
short title and the command, also under the long flag; without it the long
title. -/
theorem C15_title_dispatch_witness :
    getTitleWithOpts (commandWorld "git status".toList []) "/home/alice/projects/foo".toList
        true true = .ok "foo: git status".toList ∧
    getTitleWithOpts (commandWorld "git status".toList []) "/home/alice/projects/foo".toList
        true false = .ok "foo ‹- projects ‹- ~".toList :=
  ⟨((C15_title_dispatch (commandWorld "git status".toList [])
      "/home/alice/projects/foo".toList).1 (by decide) true "foo".toList false).1
      (by decide),
   ((C15_title_dispatch (commandWorld "git status".toList [])
      "/home/alice/projects/foo".toList).2.1 false (Or.inl rfl)).1
      "foo ‹- projects ‹- ~".toList (by decide)⟩


/-- C16, as stated, fails when stat fails with an error that is neither
not-exist nor permission-denied: for `/mnt/disk` none of the rules (1) to (6)
applies, so rule (7) would give the final segment `disk` without stop, yet
`getShortTitle` returns the stat error. -/
theorem C16_counterexample :
    "/mnt/disk".toList ≠ brokenWorld.userObj.HomeDir ∧
    NoOverride brokenWorld "/mnt/disk".toList ∧
    "/mnt/disk".toList = "/mnt".toList ++ '/' :: "disk".toList ∧
    '/' ∉ "disk".toList ∧ "disk".toList ≠ [] ∧ ("disk".toList).head? ≠ some '.' ∧
    brokenWorld.Stat "/mnt/disk".toList = .error errInputOutput ∧
    errInputOutput.isNotExist = false ∧ errInputOutput.isPermission = false ∧
    getShortTitle brokenWorld "/mnt/disk".toList =
      ([], false, some (Error.os errInputOutput)) ∧
    getShortTitle brokenWorld "/mnt/disk".toList ≠ ("disk".toList, false, none) := by
  refine ⟨by decide, ⟨errNotExist, rfl, rfl⟩, by decide, by decide, by decide, by decide,
    rfl, rfl, rfl, by decide, by decide⟩

/-- C16, amended: `getShortTitle` decides by the first applicable rule in this
order: the home directory gives `~` with stop; a readable override file gives
its title with stop; an override read that fails with an error other than
not-exist gives that error; a path without `/` gives the malformed-path error
naming the path; a final segment that is empty or starts with `.` gives the
single space with stop; a stat that fails with not-exist or permission-denied
gives the full path with stop; a stat that fails otherwise gives that error;
an owner other than the invoker, whose uid is not `0`, gives the full path
with stop; otherwise the final segment, without stop. -/
theorem C16_precedence (w : World) (dpath : GoString) :
    (dpath = w.userObj.HomeDir → getShortTitle w dpath = ("~".toList, true, none)) ∧
    (dpath ≠ w.userObj.HomeDir →
      (∀ content, HasOverride w dpath content →
        getShortTitle w dpath = (overrideTitle content, true, none)) ∧
      (∀ err, w.ReadFile (titleFile w dpath) = .error err → err.isNotExist = false →
        getShortTitle w dpath = ([], false, some (Error.os err))) ∧
      (NoOverride w dpath →
        ('/' ∉ dpath →
          getShortTitle w dpath = ([], false, some (Error.badDirectoryPath dpath))) ∧
        (∀ pre seg, dpath = pre ++ '/' :: seg → '/' ∉ seg →
          ((seg = [] ∨ seg.head? = some '.') →
            getShortTitle w dpath = (" ".toList, true, none)) ∧
          (seg ≠ [] → seg.head? ≠ some '.' →
            (∀ err, w.Stat dpath = .error err →
              ((err.isNotExist = true ∨ err.isPermission = true) →
                getShortTitle w dpath = (dpath, true, none)) ∧
              (err.isNotExist = false → err.isPermission = false →
                getShortTitle w dpath = ([], false, some (Error.os err)))) ∧
            (∀ stat, w.Stat dpath = .ok stat →
              (∀ dirUid, stat.Sys = some dirUid → w.userObj.Uid ≠ "0".toList →
                Sprintf_d dirUid ≠ w.userObj.Uid →
                getShortTitle w dpath = (dpath, true, none)) ∧
              ((stat.Sys = none ∨ w.userObj.Uid = "0".toList ∨
                  ∃ dirUid, stat.Sys = some dirUid ∧ Sprintf_d dirUid = w.userObj.Uid) →
                getShortTitle w dpath = (seg, false, none))))))) := by
  refine ⟨getShortTitle_of_home w dpath, fun hhome => ⟨?_, ?_, ?_⟩⟩
  · intro content hov
    exact getShortTitle_of_hasOverride w dpath content hhome hov
  · intro err hread hne
    exact getShortTitle_of_readError w dpath err hhome hread hne
  · intro hno
    refine ⟨fun hsl => getShortTitle_of_no_slash w dpath hsl hhome hno, ?_⟩
    intro pre seg hd hseg
    subst hd
    have hrw := getShortTitle_of_noOverride w pre seg hseg hhome hno
    refine ⟨?_, ?_⟩
    · intro hhidden
      rw [hrw]
      rcases hhidden with h | h
      · rw [if_pos h]
      · rw [if_pos h]
        split <;> rfl
    · intro hne hdot
      refine ⟨?_, ?_⟩
      · intro err hstat
        rw [hrw, if_neg hne, if_neg hdot, hstat]
        constructor
        · intro h
          rcases h with h | h <;> simp [h]
        · intro h1 h2
          simp [h1, h2]
      · intro stat hstat
        refine ⟨?_, getShortTitle_plain w pre seg hseg hne hdot hhome hno stat hstat⟩
        intro dirUid hsys hroot hdiff
        rw [hrw, if_neg hne, if_neg hdot, hstat]
        simp only [hsys]
        rw [if_pos ⟨hroot, hdiff⟩]

/-- C16, amended, on a hidden directory that does not exist, on a hidden
directory with an override file, and on the directory whose stat fails with an
input/output error. -/
theorem C16_precedence_witness :
    getShortTitle aliceWorld "/etc/.secret".toList = (" ".toList, true, none) ∧
    getShortTitle overrideWorld "/home/alice/.config".toList =
      ("Config".toList, true, none) ∧
    getShortTitle brokenWorld "/mnt/disk".toList =
      ([], false, some (Error.os errInputOutput)) :=
  ⟨((((C16_precedence aliceWorld "/etc/.secret".toList).2 (by decide)).2.2
      ⟨errNotExist, rfl, rfl⟩).2 "/etc".toList ".secret".toList rfl (by decide)).1
      (Or.inr rfl),
   ((C16_precedence overrideWorld "/home/alice/.config".toList).2 (by decide)).1
      " Config\n".toList rfl,
   ((((((C16_precedence brokenWorld "/mnt/disk".toList).2 (by decide)).2.2
      ⟨errNotExist, rfl, rfl⟩).2 "/mnt".toList "disk".toList rfl (by decide)).2
      (by decide) (by decide)).1 errInputOutput rfl).2 rfl rfl⟩

/-- C17, as stated, fails when a call on an ancestor fails: in the world where
the override file of `/home/alice/projects` may not be read, `getShortTitle`
on `/home/alice/projects/foo` succeeds with `foo`, yet `getLongTitle` on it
returns the permission error. -/
theorem C17_counterexample :
    getShortTitle brokenWorld "/home/alice/projects/foo".toList =
      ("foo".toList, false, none) ∧
    getLongTitle brokenWorld "/home/alice/projects/foo".toList =
      ([], some (Error.os errPermission)) ∧
    (getLongTitle brokenWorld "/home/alice/projects/foo".toList).2 ≠ none := by
  refine ⟨by decide, by decide, by decide⟩

/-- C17, amended: if `getShortTitle` succeeds on a path with title `t`, then
with stop `getLongTitle` succeeds and returns exactly `t`; without stop
`getLongTitle`, when it succeeds, returns `t` joined, `t` first, with the
short titles of the next ancestors of the walk, at most two, taken in order
up to the first that says stop (all of them when none does), and when it
fails its error is the error of a `getShortTitle` call on one of the ancestors
of the walk. -/
theorem C17_short_leads_long (w : World) (dpath t : GoString) (stop : Bool)
    (hs : getShortTitle w dpath = (t, stop, none)) :
    (stop = true → getLongTitle w dpath = (t, none)) ∧
    ((getLongTitle w dpath).2 = none →
      ∃ qs : List GoString, qs <+: (walkPaths dpath).tail ∧ qs.length ≤ 2 ∧
        (∀ q ∈ qs, (getShortTitle w q).2.2 = none) ∧
        (stop = true → qs = []) ∧
        (stop = false →
          (∀ q ∈ qs.dropLast, (getShortTitle w q).2.1 = false) ∧
          (qs = (walkPaths dpath).tail ∨
            ∃ q, qs.getLast? = some q ∧ (getShortTitle w q).2.1 = true)) ∧
        (getLongTitle w dpath).1 =
          Join (t :: qs.map (fun q => (getShortTitle w q).1)) (titleSep w)) ∧
    (∀ err, (getLongTitle w dpath).2 = some err →
      stop = false ∧ ∃ q ∈ (walkPaths dpath).tail, (getShortTitle w q).2.2 = some err) := by
  have hnil : ∀ (l : List GoString) (b : Bool), b = true →
      ∃ qs : List GoString, qs <+: l ∧ qs.length ≤ 2 ∧
      (∀ q ∈ qs, (getShortTitle w q).2.2 = none) ∧
      (b = true → qs = []) ∧
      (b = false →
        (∀ q ∈ qs.dropLast, (getShortTitle w q).2.1 = false) ∧
        (qs = l ∨ ∃ q, qs.getLast? = some q ∧ (getShortTitle w q).2.1 = true)) ∧
      t = Join (t :: qs.map (fun q => (getShortTitle w q).1)) (titleSep w) :=
    fun l b hb => ⟨[], List.nil_prefix, by simp, by simp, fun _ => rfl,
      fun h => absurd (hb.symm.trans h) (by decide), (join_singleton _ _).symm⟩
  by_cases hhome : dpath = w.userObj.HomeDir
  · have hl : getLongTitle w dpath = ("~".toList, none) := by
      unfold getLongTitle
      rw [if_pos hhome]
    rw [getShortTitle_of_home w dpath hhome] at hs
    simp only [Prod.mk.injEq] at hs
    obtain ⟨ht, hstop, -⟩ := hs
    subst ht
    rw [hl]
    exact ⟨fun _ => rfl, fun _ => hnil _ stop hstop.symm, fun err h => by simp at h⟩
  · rcases readTitleFile_cases w dpath with ⟨c, hov⟩ | hno | ⟨err, hread, hne⟩
    · rw [getShortTitle_of_hasOverride w dpath c hhome hov] at hs
      simp only [Prod.mk.injEq] at hs
      obtain ⟨ht, hstop, -⟩ := hs
      subst ht
      rw [getLongTitle_of_hasOverride w dpath c hhome hov]
      exact ⟨fun _ => rfl, fun _ => hnil _ stop hstop.symm, fun err h => by simp at h⟩
    · have hsl : '/' ∈ dpath := by
        by_contra hsl
        rw [getShortTitle_of_no_slash w dpath hsl hhome hno] at hs
        simp at hs
      obtain ⟨tl, hpaths, htl⟩ := walkPaths_cons dpath hsl
      have hlong := (getLongTitle_of_noOverride w dpath hhome hno).2
      rw [hpaths] at hlong
      unfold walkList at hlong
      rw [hs] at hlong
      simp only [List.nil_append] at hlong
      rw [hpaths, List.tail_cons]
      cases stop with
      | true =>
        simp only [if_true] at hlong
        rw [hlong, join_singleton]
        exact ⟨fun _ => rfl, fun _ => hnil _ true rfl, fun err h => by simp at h⟩
      | false =>
        simp only [Bool.false_eq_true, if_false] at hlong
        refine ⟨fun h => absurd h (by decide), ?_, ?_⟩
        · intro hok
          cases hwalk : walkList w tl [t] with
          | error e =>
            rw [hlong, hwalk] at hok
            simp at hok
          | ok res =>
            obtain ⟨qs, hpre, herr, hdrop, hend, hres⟩ :=
              walkList_ok_initial w tl [t] res hwalk
            refine ⟨qs, hpre, ?_, herr, fun h => absurd h (by decide),
              fun _ => ⟨hdrop, hend⟩, ?_⟩
            · have := hpre.length_le
              omega
            · rw [hlong, hwalk, hres]
              rfl
        · intro err herr
          refine ⟨rfl, ?_⟩
          cases hwalk : walkList w tl [t] with
          | ok res =>
            rw [hlong, hwalk] at herr
            simp at herr
          | error e =>
            rw [hlong, hwalk] at herr
            simp only [Option.some.injEq] at herr
            subst herr
            exact walkList_error_mem w tl [t] _ hwalk
    · rw [getShortTitle_of_readError w dpath err hhome hread hne] at hs
      simp at hs

/-- C17, amended, on `/etc/cron.d`, whose short title says stop, and on
`/home/alice/projects/foo`, whose short title `foo` does not: the long title
is `foo` joined with the titles of the next ancestors of the walk. -/
theorem C17_short_leads_long_witness :
    getLongTitle aliceWorld "/etc/cron.d".toList = ("/etc/cron.d".toList, none) ∧
    ∃ qs : List GoString,
      qs <+: (walkPaths "/home/alice/projects/foo".toList).tail ∧ qs.length ≤ 2 ∧
      (∀ q ∈ qs, (getShortTitle aliceWorld q).2.2 = none) ∧
      (false = true → qs = []) ∧
      (false = false →
        (∀ q ∈ qs.dropLast, (getShortTitle aliceWorld q).2.1 = false) ∧
        (qs = (walkPaths "/home/alice/projects/foo".toList).tail ∨
          ∃ q, qs.getLast? = some q ∧ (getShortTitle aliceWorld q).2.1 = true)) ∧
      (getLongTitle aliceWorld "/home/alice/projects/foo".toList).1 =
        Join ("foo".toList :: qs.map (fun q => (getShortTitle aliceWorld q).1))
          (titleSep aliceWorld) :=
  ⟨(C17_short_leads_long aliceWorld "/etc/cron.d".toList "/etc/cron.d".toList true
      (by decide)).1 rfl,
   (C17_short_leads_long aliceWorld "/home/alice/projects/foo".toList "foo".toList false
      (by decide)).2.1 (by decide)⟩

/-- C18: a title that `getShortTitle` returns without error is never empty;
`getShortTitle` returns stop = false only with the final segment of the path
as title, which is then non-empty, contains no `/` and does not start with
`.`; so every title the loop of `getLongTitle` collects, except possibly the
last, is such a plain directory name. -/
theorem C18_plain_names (w : World) (dpath : GoString) :
    (∀ t stop, getShortTitle w dpath = (t, stop, none) →
      t ≠ [] ∧ (stop = false →
        ∃ pre, dpath = pre ++ '/' :: t ∧ t ≠ [] ∧ '/' ∉ t ∧ t.head? ≠ some '.')) ∧
    (∀ titles, dpath ≠ w.userObj.HomeDir → NoOverride w dpath →
      getLongTitleLoop w (Split dpath '/') (stopIndex (Split dpath '/'))
          (Split dpath '/').length [] = .ok titles →
      getLongTitle w dpath = (Join titles (titleSep w), none) ∧
      ∀ x ∈ titles.dropLast, x ≠ [] ∧ '/' ∉ x ∧ x.head? ≠ some '.') := by
  constructor
  · intro t stop hs
    obtain ⟨hne, hplain⟩ := getShortTitle_ok_inv w dpath t stop hs
    refine ⟨hne, fun hstop => ?_⟩
    obtain ⟨-, -, pre, hd, hsl, hdot⟩ := hplain hstop
    exact ⟨pre, hd, hne, hsl, hdot⟩
  · intro titles hhome hno hloop
    obtain ⟨h1, h2⟩ := getLongTitle_of_noOverride w dpath hhome hno
    rw [h1] at hloop
    refine ⟨by rw [h2, hloop], ?_⟩
    obtain ⟨ts, hts, hall⟩ := walkList_ok_dropLast w _ _ _ hloop
    simp only [List.nil_append] at hts
    subst hts
    intro x hx
    obtain ⟨q, -, hq⟩ := hall x hx
    obtain ⟨hne, hplain⟩ := getShortTitle_ok_inv w q x false hq
    obtain ⟨-, -, pre, -, hsl, hdot⟩ := hplain rfl
    exact ⟨hne, hsl, hdot⟩

/-- C18 on `/home/alice/projects/foo`: its short title is the plain name
`foo`. -/
theorem C18_plain_names_witness :
    "foo".toList ≠ [] ∧
      ∃ pre, "/home/alice/projects/foo".toList = pre ++ '/' :: "foo".toList ∧
        "foo".toList ≠ [] ∧ '/' ∉ "foo".toList ∧ ("foo".toList).head? ≠ some '.' :=
  let h := (C18_plain_names aliceWorld "/home/alice/projects/foo".toList).1
    "foo".toList false (by decide)
  ⟨h.1, h.2 rfl⟩

/-- C19: on an absolute path neither `getShortTitle` nor `getLongTitle`
returns the malformed-path error: the split yields at least one part, every
path of the walk joins at least two parts and so contains a `/`, the walk
starts with a call on the path itself, and every error returned is an error of
the `os` package (an override-read or stat error). -/
theorem C19_absolute_paths (w : World) (dpath : GoString) (habs : dpath.head? = some '/') :
    (∀ p, (getShortTitle w dpath).2.2 ≠ some (Error.badDirectoryPath p)) ∧
    (∀ p, (getLongTitle w dpath).2 ≠ some (Error.badDirectoryPath p)) ∧
    (Split dpath '/').length ≠ 0 ∧
    (∀ q ∈ walkPaths dpath,
      (∃ m, 2 ≤ m ∧ m ≤ (Split dpath '/').length ∧
        q = Join ((Split dpath '/').take m) "/".toList) ∧ '/' ∈ q) ∧
    (walkPaths dpath).head? = some dpath ∧
    (∀ e, (getShortTitle w dpath).2.2 = some e → ∃ oe, e = Error.os oe) ∧
    (∀ e, (getLongTitle w dpath).2 = some e → ∃ oe, e = Error.os oe) := by
  have hsl : '/' ∈ dpath := by
    cases dpath with
    | nil => simp at habs
    | cons c cs =>
      simp only [List.head?_cons, Option.some.injEq] at habs
      subst habs
      exact List.mem_cons_self _ _
  have hshort : ∀ e, (getShortTitle w dpath).2.2 = some e → ∃ oe, e = Error.os oe :=
    getShortTitle_error_os w dpath hsl
  have hlong : ∀ e, (getLongTitle w dpath).2 = some e → ∃ oe, e = Error.os oe := by
    intro e he
    by_cases hhome : dpath = w.userObj.HomeDir
    · unfold getLongTitle at he
      rw [if_pos hhome] at he
      simp at he
    · rcases readTitleFile_cases w dpath with ⟨c, hov⟩ | hno | ⟨err, hread, hne⟩
      · rw [getLongTitle_of_hasOverride w dpath c hhome hov] at he
        simp at he
      · obtain ⟨q, hq, hqe⟩ := getLongTitle_error_mem w dpath hhome hno e he
        exact getShortTitle_error_os w q (walkPaths_mem dpath q hq).2 e hqe
      · rw [getLongTitle_of_readError w dpath err hhome hread hne] at he
        simp only [Option.some.injEq] at he
        exact ⟨err, he.symm⟩
  refine ⟨?_, ?_, ?_, walkPaths_mem dpath,
    walkPaths_head dpath (split_length_ge_two dpath hsl), hshort, hlong⟩
  · intro p hp
    obtain ⟨oe, hoe⟩ := hshort _ hp
    cases hoe
  · intro p hp
    obtain ⟨oe, hoe⟩ := hlong _ hp
    cases hoe
  · have := split_length_pos dpath '/'
    omega

/-- C19 on `/home/alice/projects/foo` in the world where the walk fails: the
error is not the malformed-path error. -/
theorem C19_absolute_paths_witness :
    (getLongTitle brokenWorld "/home/alice/projects/foo".toList).2 ≠
      some (Error.badDirectoryPath "/home/alice/projects/foo".toList) :=
  (C19_absolute_paths brokenWorld "/home/alice/projects/foo".toList rfl).2.1
    "/home/alice/projects/foo".toList

end Dirtitle
